import Mathlib

/-!
Verification development for the bloodwork-screening pipeline of
`src/app/api/bloodwork-screening/route.ts`.

The pipeline is embedded shallowly:

* numeric values are modelled as rationals (`ℚ`); the JS code computes with
  IEEE doubles, but every constant and comparison relevant to the claims is
  exact in `ℚ`;
* strings are modelled as `List Char` (via `String.data` at the boundary);
* the three JS regular expressions used by `parseBloodworkText` are modelled
  by a small backtracking matcher (`mtch`) over a regex syntax (`RE`) whose
  alternation order and greedy quantifiers follow the JS semantics
  (leftmost match, greedy quantifiers with backtracking, `matchAll`
  continuing after the end of the previous match);
* `parseFloat` is modelled as `jsParseFloat : List Char → Option ℚ`
  (`none` models `NaN`; non-finite results, which no input relevant to the
  claims produces, are also mapped to `none`).
-/

namespace Bloodwork

/-! ## Character classes and string utilities -/

/-- ASCII lower-casing, as `String.prototype.toLowerCase` acts on the ASCII
characters appearing in the catalog names and units (the only non-ASCII
character there, `μ`, is already lowercase and is fixed by both). -/
def lowerChar (c : Char) : Char :=
  if 'A' ≤ c ∧ c ≤ 'Z' then Char.ofNat (c.toNat + 32) else c

def lowerL (l : List Char) : List Char := l.map lowerChar

/-- JS `\d`. -/
def isDigitC (c : Char) : Bool := '0' ≤ c ∧ c ≤ '9'

/-- JS `\s`, restricted to the ASCII whitespace that can occur in our inputs. -/
def isWsC (c : Char) : Bool := c = ' ' ∨ c = '\t' ∨ c = '\n' ∨ c = '\r'

def isAlphaC (c : Char) : Bool := ('A' ≤ c ∧ c ≤ 'Z') ∨ ('a' ≤ c ∧ c ≤ 'z')

/-- The class `[A-Za-z\s]` (test-name part of the generic patterns). -/
def isNameC (c : Char) : Bool := isAlphaC c || isWsC c

/-- The class `[a-zA-Z\/%]` (unit tokens). -/
def isUnitC (c : Char) : Bool := isAlphaC c || c = '/' || c = '%'

/-- The class `[^)]`. -/
def isNotRParen (c : Char) : Bool := c ≠ ')'

/-- JS `String.prototype.trim` on the characters occurring here. -/
def jsTrim (l : List Char) : List Char :=
  ((l.dropWhile isWsC).reverse.dropWhile isWsC).reverse

/-- Case-insensitive substring test: models `new RegExp(name, "i").test(line)`
for a literal `name` (parentheses are escaped in the source, so the regex is
a literal), and `String.prototype.includes` on lower-cased strings. -/
def containsCI (pat l : List Char) : Bool :=
  decide (lowerL pat <:+: lowerL l)

/-- `text.split(/\n/)`. -/
def splitNl : List Char → List (List Char)
  | [] => [[]]
  | c :: t =>
    if c = '\n' then [] :: splitNl t
    else
      match splitNl t with
      | [] => [[c]]
      | l :: ls => (c :: l) :: ls

/-! ## Decimal numerals -/

def digitVal (c : Char) : ℕ := c.toNat - '0'.toNat

def digitsToNat (l : List Char) : ℕ :=
  l.foldl (fun acc c => 10 * acc + digitVal c) 0

/-- Value of the decimal numeral `ip ++ "." ++ fp` (`fp = []` meaning no
fractional part). -/
def decVal (ip fp : List Char) : ℚ :=
  (digitsToNat ip : ℚ) + (digitsToNat fp : ℚ) / (10 : ℚ) ^ fp.length

/-- The text of the decimal numeral with integer digits `ip` and fractional
digits `fp`. -/
def numStr (ip fp : List Char) : List Char :=
  ip ++ (if fp = [] then [] else '.' :: fp)

/-- Model of `parseFloat` on the strings the pipeline feeds to it: an optional
leading decimal numeral `\d+(\.\d*)?` is parsed; a string with no such prefix
gives `none` (NaN).  (JS also accepts signs, exponents and `"Infinity"`;
no string matched by the pipeline's regexes and relevant to the claims takes
those shapes, and a non-finite result is not representable in `ℚ`.) -/
def jsParseFloat (l : List Char) : Option ℚ :=
  let ip := l.takeWhile isDigitC
  if ip = [] then none
  else
    let rest := l.drop ip.length
    match rest with
    | '.' :: r => some (decVal ip (r.takeWhile isDigitC))
    | _ => some (decVal ip [])

/-! ## A backtracking regex matcher

`mtch re s caps k` attempts to match `re` against a prefix of `s` in JS
order: alternatives left to right, quantifiers greedy, backtracking into
earlier choices when the continuation `k` fails.  Star/plus quantifiers only
ever range over single character classes in the three source regexes, so the
syntax restricts them to classes, which keeps the matcher structurally
terminating. -/

inductive RE where
  | cls (p : Char → Bool) : RE
  | lit (c : Char) : RE
  | seq (a b : RE) : RE
  | opt (a : RE) : RE
  | star (p : Char → Bool) : RE
  | plus (p : Char → Bool) : RE
  | grp (i : ℕ) (a : RE) : RE

/-- Captured groups: group index paired with the matched characters. -/
abbrev Caps := List (ℕ × List Char)

abbrev MRes := Option (List Char × Caps)

/-- Greedy Kleene star over a character class: consume as many `p`-characters
as possible, then release them one at a time while the continuation fails. -/
def starM (p : Char → Bool) : List Char → Caps → (List Char → Caps → MRes) → MRes
  | [], caps, k => k [] caps
  | c :: cs, caps, k =>
    if p c then
      match starM p cs caps k with
      | some r => some r
      | none => k (c :: cs) caps
    else k (c :: cs) caps

def mtch : RE → List Char → Caps → (List Char → Caps → MRes) → MRes
  | .cls p, s, caps, k =>
    match s with
    | [] => none
    | c :: cs => if p c then k cs caps else none
  | .lit a, s, caps, k =>
    match s with
    | [] => none
    | c :: cs => if c = a then k cs caps else none
  | .seq a b, s, caps, k => mtch a s caps (fun s1 c1 => mtch b s1 c1 k)
  | .opt a, s, caps, k =>
    match mtch a s caps k with
    | some r => some r
    | none => k s caps
  | .star p, s, caps, k => starM p s caps k
  | .plus p, s, caps, k =>
    match s with
    | [] => none
    | c :: cs => if p c then starM p cs caps k else none
  | .grp i a, s, caps, k =>
    mtch a s caps (fun s1 c1 => k s1 ((i, s.take (s.length - s1.length)) :: c1))

def lookupCap (caps : Caps) (i : ℕ) : List Char :=
  match caps.find? (fun p => p.1 = i) with
  | some p => p.2
  | none => []

/-- Top-level continuation: accept, returning the rest of the input and the
captures. -/
def mAccept : List Char → Caps → MRes := fun s caps => some (s, caps)

/-! ### The three source regexes -/

/-- `(\d+\.?\d*)` without the capture. -/
def reNum : RE := .seq (.plus isDigitC) (.seq (.opt (.lit '.')) (.star isDigitC))

/-- `/(\d+\.?\d*)\s*([a-zA-Z\/%]+)/` — used on a line that matched a catalog
test name (`line.match(...)`, first match). -/
def reNumUnit : RE :=
  .seq (.grp 1 reNum) (.seq (.star isWsC) (.grp 2 (.plus isUnitC)))

/-- `([A-Za-z\s]+(?:\([^)]+\))?)` — the test-name group of the generic
patterns. -/
def reNameGrp (i : ℕ) : RE :=
  .grp i (.seq (.plus isNameC)
    (.opt (.seq (.lit '(') (.seq (.plus isNotRParen) (.lit ')')))))

/-- Pattern 1 without its `(?:^|\s)` prefix:
`([A-Za-z\s]+(?:\([^)]+\))?)\s*:?\s*(\d+\.?\d*)\s*([a-zA-Z\/%]+)`. -/
def p1core : RE :=
  .seq (reNameGrp 1)
    (.seq (.star isWsC) (.seq (.opt (.lit ':')) (.seq (.star isWsC)
      (.seq (.grp 2 reNum) (.seq (.star isWsC) (.grp 3 (.plus isUnitC)))))))

/-- Pattern 2: `(\d+\.?\d*)\s*([a-zA-Z\/%]+)\s+([A-Za-z\s]+(?:\([^)]+\))?)`. -/
def p2 : RE :=
  .seq (.grp 1 reNum)
    (.seq (.star isWsC) (.seq (.grp 2 (.plus isUnitC))
      (.seq (.plus isWsC) (reNameGrp 3))))

/-- One attempt of pattern 1 at the current position.  `atStart` tells whether
the position is the beginning of the line: there the `^` alternative of
`(?:^|\s)` is tried first, then the `\s` alternative; elsewhere only `\s`. -/
def tryP1 (atStart : Bool) (s : List Char) : MRes :=
  if atStart then
    match mtch p1core s [] mAccept with
    | some r => some r
    | none => mtch (.seq (.cls isWsC) p1core) s [] mAccept
  else mtch (.seq (.cls isWsC) p1core) s [] mAccept

def tryP2 (s : List Char) : MRes := mtch p2 s [] mAccept

/-- `String.prototype.matchAll` for a `g`-flagged regex, with explicit fuel:
scan left to right, recording each match's captures and resuming after its
end (advancing one position past an empty match).  Every step consumes at
least one character, so `length + 1` fuel (as supplied by `matchAllG`) is
never exhausted. -/
def matchAllGF (try_ : Bool → List Char → MRes) :
    ℕ → List Char → Bool → List Caps
  | 0, _, _ => []
  | fuel + 1, s, atStart =>
    match try_ atStart s with
    | some (rest, caps) =>
      if rest.length < s.length then caps :: matchAllGF try_ fuel rest false
      else
        match s with
        | [] => [caps]
        | _ :: t => caps :: matchAllGF try_ fuel t false
    | none =>
      match s with
      | [] => []
      | _ :: t => matchAllGF try_ fuel t false

def matchAllG (try_ : Bool → List Char → MRes) (s : List Char)
    (atStart : Bool) : List Caps :=
  matchAllGF try_ (s.length + 1) s atStart

/-- `line.match(/(\d+\.?\d*)\s*([a-zA-Z\/%]+)/)` — the first (leftmost) match,
returning the two captures. -/
def firstNumUnit : List Char → Option (List Char × List Char)
  | [] => none
  | c :: t =>
    match mtch reNumUnit (c :: t) [] mAccept with
    | some (_, caps) => some (lookupCap caps 1, lookupCap caps 2)
    | none => firstNumUnit t

/-! ## The reference catalog -/

structure RangeEntry where
  key : String
  min : ℚ
  max : ℚ
  unit : String
  name : String
deriving DecidableEq, Repr

/-- `NORMAL_RANGES`, in `Object.entries`/`Object.values` (insertion) order. -/
def NORMAL_RANGES : List RangeEntry := [
  ⟨"glucose", 70, 100, "mg/dL", "Glucose (Fasting)"⟩,
  ⟨"hemoglobin", 12, 17.5, "g/dL", "Hemoglobin"⟩,
  ⟨"hematocrit", 36, 52, "%", "Hematocrit"⟩,
  ⟨"wbc", 4.5, 11, "K/μL", "White Blood Cell Count"⟩,
  ⟨"rbc", 4.5, 5.9, "M/μL", "Red Blood Cell Count"⟩,
  ⟨"platelets", 150, 450, "K/μL", "Platelet Count"⟩,
  ⟨"cholesterol", 0, 200, "mg/dL", "Total Cholesterol"⟩,
  ⟨"ldl", 0, 100, "mg/dL", "LDL Cholesterol"⟩,
  ⟨"hdl", 40, 999, "mg/dL", "HDL Cholesterol"⟩,
  ⟨"triglycerides", 0, 150, "mg/dL", "Triglycerides"⟩,
  ⟨"creatinine", 0.6, 1.2, "mg/dL", "Creatinine"⟩,
  ⟨"bun", 7, 20, "mg/dL", "BUN (Blood Urea Nitrogen)"⟩,
  ⟨"alt", 7, 56, "U/L", "ALT (Alanine Aminotransferase)"⟩,
  ⟨"ast", 10, 40, "U/L", "AST (Aspartate Aminotransferase)"⟩,
  ⟨"tsh", 0.4, 4.0, "mIU/L", "TSH (Thyroid Stimulating Hormone)"⟩,
  ⟨"t4", 4.5, 11.2, "μg/dL", "T4 (Thyroxine)"⟩,
  ⟨"vitamin_d", 20, 50, "ng/mL", "Vitamin D"⟩,
  ⟨"b12", 200, 900, "pg/mL", "Vitamin B12"⟩,
  ⟨"iron", 60, 170, "μg/dL", "Iron"⟩,
  ⟨"ferritin", 15, 200, "ng/mL", "Ferritin"⟩]

/-! ## Value extraction (`parseBloodworkText`) -/

structure Measurement where
  name : String
  value : ℚ
  unit : String
deriving DecidableEq, Repr

/-- The catalog-driven path for one line: for every catalog entry whose
display name appears in the line (case-insensitively, parens literal), record
the line's first number/unit pair under the catalog's display name. -/
def catalogStep (line : List Char) (r : RangeEntry) : List Measurement :=
  if containsCI r.name.data line then
    match firstNumUnit line with
    | some (v, u) =>
      match jsParseFloat v with
      | some q => [⟨r.name, q, String.mk u⟩]
      | none => []
    | none => []
  else []

/-- `r.name.toLowerCase().split(" ")[0]`. -/
def firstWordLower (r : RangeEntry) : List Char :=
  (lowerL r.name.data).takeWhile (fun c => c ≠ ' ')

/-- The fuzzy catalog lookup of the generic path:
`Object.values(NORMAL_RANGES).find((r) => r.name.toLowerCase().includes(tn) ||
tn.includes(r.name.toLowerCase().split(" ")[0]))`. -/
def findKnown (tn : List Char) : Option RangeEntry :=
  NORMAL_RANGES.find? (fun r =>
    containsCI tn r.name.data || decide (firstWordLower r <:+: lowerL tn))

/-- The push guarded by the fuzzy lookup: `if (knownTest) results.push(...)`. -/
def pushKnown (tn : List Char) (q : ℚ) (u : List Char) : List Measurement :=
  match findKnown (lowerL tn) with
  | some r => [⟨r.name, q, String.mk u⟩]
  | none => []

/-- Processing of one generic-pattern match object (`match[1]`, `match[2]`,
`match[3]`): `testName = match[1]?.trim() || match[3]?.trim()`,
`value = parseFloat(match[2] || match[1])`, `unit = match[3] || match[2]`,
guarded by `testName && !isNaN(value) && unit`, then the fuzzy lookup. -/
def procGeneric (caps : Caps) : List Measurement :=
  let g1 := lookupCap caps 1
  let g2 := lookupCap caps 2
  let g3 := lookupCap caps 3
  let tn := if jsTrim g1 = [] then jsTrim g3 else jsTrim g1
  let v := jsParseFloat (if g2 = [] then g1 else g2)
  let u := if g3 = [] then g2 else g3
  if tn ≠ [] ∧ v.isSome ∧ u ≠ [] then
    match v with
    | some q => pushKnown tn q u
    | none => []
  else []

def flatM (f : α → List β) : List α → List β
  | [] => []
  | a :: t => f a ++ flatM f t

/-- All measurements a single line contributes, in push order: catalog-driven
matches first (catalog order), then pattern-1 matches, then pattern-2
matches. -/
def lineResults (line : List Char) : List Measurement :=
  flatM (catalogStep line) NORMAL_RANGES ++
  flatM procGeneric (matchAllG tryP1 line true) ++
  flatM procGeneric (matchAllG (fun _ => tryP2) line true)

/-- All measurements pushed to `results`, before deduplication. -/
def rawResults (text : List Char) : List Measurement :=
  flatM lineResults (splitNl text)

/-- `results.findIndex((r) => r.name === result.name)` (JS: `-1` if absent). -/
def jsFindIndex (p : α → Bool) : List α → Int
  | [] => -1
  | a :: t =>
    if p a then 0
    else if jsFindIndex p t < 0 then -1 else jsFindIndex p t + 1

/-- `results.filter((result, index, self) => index === self.findIndex(...))`. -/
def jsFilterIdx (l : List Measurement) : ℕ → List Measurement → List Measurement
  | _, [] => []
  | i, m :: t =>
    if (i : Int) = jsFindIndex (fun r => r.name = m.name) l then
      m :: jsFilterIdx l (i + 1) t
    else jsFilterIdx l (i + 1) t

def jsDedup (l : List Measurement) : List Measurement := jsFilterIdx l 0 l

def parseBloodworkLC (text : List Char) : List Measurement :=
  jsDedup (rawResults text)

def parseBloodworkText (text : String) : List Measurement :=
  parseBloodworkLC text.data

/-! ## Clinical classification (`analyzeValue`) -/

inductive Status where
  | normal | low | high | critical
deriving DecidableEq, Repr

structure AnalyzeRes where
  status : Status
  normalRange : String
  explanation : String
deriving DecidableEq, Repr

/-- JS number-to-string rendering, on the catalog's range bounds (nonnegative,
at most one decimal digit): an integral value prints without a decimal point
(`4.0` prints as `"4"`), otherwise one fractional digit is printed. -/
def ratStr (q : ℚ) : String :=
  if q.den = 1 then toString q.num
  else toString (q.num * 10 / (q.den : ℤ) / 10) ++ "." ++
    toString ((q.num * 10 / (q.den : ℤ)) % 10)

/-- `` `${min}-${max} ${range.unit}` ``. -/
def rangeStr (r : RangeEntry) : String :=
  ratStr r.min ++ "-" ++ ratStr r.max ++ " " ++ r.unit

/-- The classification of an already-normalized value against a known range:
the final `if`-cascade of `analyzeValue`. -/
def classifyCore (r : RangeEntry) (normalizedValue : ℚ) : AnalyzeRes :=
  if normalizedValue < r.min then
    ⟨if normalizedValue < r.min * 0.7 then .critical else .low,
     rangeStr r,
     "Your " ++ r.name ++ " level is below the normal range (" ++ ratStr r.min ++
       "-" ++ ratStr r.max ++ " " ++ r.unit ++
       "). This could indicate a deficiency or underlying condition."⟩
  else if normalizedValue > r.max then
    ⟨if normalizedValue > r.max * 1.5 then .critical else .high,
     rangeStr r,
     "Your " ++ r.name ++ " level is above the normal range (" ++ ratStr r.min ++
       "-" ++ ratStr r.max ++ " " ++ r.unit ++
       "). This may require medical attention."⟩
  else
    ⟨.normal,
     rangeStr r,
     "Your " ++ r.name ++ " level is within the normal range (" ++ ratStr r.min ++
       "-" ++ ratStr r.max ++ " " ++ r.unit ++ "). This is a good sign!"⟩

/-- The unit normalization step of `analyzeValue`: only when the units differ
and the reference unit is `mg/dL` while the measured unit contains `"mmol"`
(lower-cased) is the value scaled by 18. -/
def normalizeUnit (r : RangeEntry) (value : ℚ) (unit : String) : ℚ :=
  if unit ≠ r.unit then
    if r.unit = "mg/dL" ∧ decide ("mmol".data <:+: lowerL unit.data) then value * 18
    else value
  else value

def unknownRes : AnalyzeRes :=
  ⟨.normal, "Unknown",
   "This test result was found in your bloodwork. We recommend consulting with your doctor about this value."⟩

def lookupRange (name : String) : Option RangeEntry :=
  NORMAL_RANGES.find? (fun r => r.name = name)

def analyzeValue (name : String) (value : ℚ) (unit : String) : AnalyzeRes :=
  match lookupRange name with
  | none => unknownRes
  | some range => classifyCore range (normalizeUnit range value unit)

/-! ## Summary synthesis (`generateSummary`) -/

structure Analyzed where
  name : String
  value : ℚ
  unit : String
  status : Status
  normalRange : String
  explanation : String
deriving DecidableEq, Repr

/-- The closing sentence appended to the summary in every branch. -/
def closingSentence : String :=
  "Review the detailed results below for more information about each test."

def generateSummary (values : List Analyzed) : String × List String :=
  let flagged := values.filter (fun v => v.status ≠ Status.normal)
  let critical := values.filter (fun v => v.status = Status.critical)
  let high := values.filter (fun v => v.status = Status.high)
  let low := values.filter (fun v => v.status = Status.low)
  if critical.length > 0 then
    ("⚠️ Your bloodwork shows " ++ toString critical.length ++
       " critical value(s) that require immediate medical attention. " ++
       closingSentence,
     ["Schedule an appointment with your doctor as soon as possible.",
      "If you're experiencing severe symptoms, consider seeking emergency care."])
  else if high.length > 0 || low.length > 0 then
    ("Your bloodwork shows " ++ toString flagged.length ++
       " value(s) outside the normal range. " ++
       (if high.length > 0 then
         "You have " ++ toString high.length ++ " elevated value(s). " else "") ++
       (if low.length > 0 then
         "You have " ++ toString low.length ++ " low value(s). " else "") ++
       closingSentence,
     ["Consult with your healthcare provider about these results.",
      "Consider lifestyle changes like diet and exercise if recommended by your doctor."])
  else
    ("✅ Great news! All your bloodwork values are within normal ranges. " ++
       closingSentence,
     ["Continue maintaining a healthy lifestyle.",
      "Schedule regular check-ups to monitor your health."])

/-! ## The POST handler's processing core -/

def analyzeAll (ms : List Measurement) : List Analyzed :=
  ms.map (fun m =>
    let a := analyzeValue m.name m.value m.unit
    ⟨m.name, m.value, m.unit, a.status, a.normalRange, a.explanation⟩)

structure ScreeningCore where
  values : List Analyzed
  summary : String
  recommendations : List String
  flaggedCount : ℕ
deriving DecidableEq, Repr

/-- The pure part of the `POST` handler after text extraction: parse, analyze,
summarize, count flagged values (`none` models the "no values extracted"
400 response). -/
def processText (text : String) : Option ScreeningCore :=
  let parsedValues := parseBloodworkText text
  if parsedValues.length = 0 then none
  else
    let analyzedValues := analyzeAll parsedValues
    let s := generateSummary analyzedValues
    some ⟨analyzedValues, s.1, s.2,
      (analyzedValues.filter (fun v => v.status ≠ Status.normal)).length⟩

/-! ## Filesystem model of the upload handler (for the cleanup claim)

The handler's interaction with the filesystem is modelled as a list of
operations on an abstract store of file paths (operations are assumed to
succeed; the source additionally swallows a failing `unlink` in an inner
`try`).  Text extraction itself is external (`pdf-parse`), so its outcome is
a parameter; the four constructors cover the handler's execution paths after
the buffer is staged. -/

inductive FsOp where
  | write (p : String)
  | unlink (p : String)
deriving DecidableEq, Repr

def applyFs (fs : List String) : FsOp → List String
  | .write p => p :: fs
  | .unlink p => fs.filter (fun q => q ≠ p)

def runFs (fs : List String) (ops : List FsOp) : List String :=
  ops.foldl applyFs fs

inductive ExtractOutcome where
  | pdfText (t : String)
  | pdfError
  | image
  | rawText (t : String)

/-- Outcome of the `try` block: extracted text, the early `return` of the
unsupported-image branch, or a thrown extraction error. -/
inductive TryOut where
  | text (t : String)
  | earlyReturn
  | threw

inductive UploadResponse where
  | imageUnsupported
  | extractionFailed
  | noValues (preview : String)
  | ok (r : ScreeningCore)

/-- The upload handler from the staging of the buffer onwards:
`fs.writeFile(tempFilePath, buffer)`, then the `try`/`finally` block whose
`finally` clause unlinks the temporary file on every path (successful
extraction, thrown extraction error, and the early unsupported-image
return), then the parsing pipeline. -/
def handleUpload (tempFilePath : String) (outcome : ExtractOutcome) :
    List FsOp × UploadResponse :=
  let body : TryOut :=
    match outcome with
    | .pdfText t => .text t
    | .pdfError => .threw
    | .image => .earlyReturn
    | .rawText t => .text t
  let ops := [FsOp.write tempFilePath] ++ [FsOp.unlink tempFilePath]
  match body with
  | .earlyReturn => (ops, .imageUnsupported)
  | .threw => (ops, .extractionFailed)
  | .text t =>
    (ops,
     match processText t with
     | none => .noValues ⟨t.data.take 500⟩
     | some r => .ok r)

/-! ## Auxiliary definitions used to state and prove the claims -/

/-- Reference implementation of the deduplication: keep a measurement iff its
display name has not been seen yet (the `seen` accumulator holds the names
already kept).  `jsDedup` is proved equal to `dedupAcc []`. -/
def dedupAcc (seen : List String) : List Measurement → List Measurement
  | [] => []
  | m :: t =>
    if m.name ∈ seen then dedupAcc seen t
    else m :: dedupAcc (m.name :: seen) t

/-- The critical-branch summary text, as a function of the critical count. -/
def critSummaryStr (c : ℕ) : String :=
  "⚠️ Your bloodwork shows " ++ toString c ++
    " critical value(s) that require immediate medical attention. " ++
    closingSentence

/-- The neutral-branch summary text, as a function of the flagged, high and
low counts (the high/low sentences appear exactly when the counts are
positive). -/
def neutralSummaryStr (f h l : ℕ) : String :=
  "Your bloodwork shows " ++ toString f ++
    " value(s) outside the normal range. " ++
    (if h > 0 then "You have " ++ toString h ++ " elevated value(s). " else "") ++
    (if l > 0 then "You have " ++ toString l ++ " low value(s). " else "") ++
    closingSentence

def allNormalSummaryStr : String :=
  "✅ Great news! All your bloodwork values are within normal ranges. " ++
    closingSentence

def critRecs : List String :=
  ["Schedule an appointment with your doctor as soon as possible.",
   "If you're experiencing severe symptoms, consider seeking emergency care."]

def neutralRecs : List String :=
  ["Consult with your healthcare provider about these results.",
   "Consider lifestyle changes like diet and exercise if recommended by your doctor."]

def normalRecs : List String :=
  ["Continue maintaining a healthy lifestyle.",
   "Schedule regular check-ups to monitor your health."]

/-- The single-line input `"<E.name>: <v> <E.unit>"` of the extraction claim,
with `v` the decimal numeral `numStr ip fp`. -/
def mkLine (E : RangeEntry) (ip fp : List Char) : List Char :=
  E.name.data ++ ':' :: ' ' :: (numStr ip fp ++ ' ' :: E.unit.data)

/-! # Theorems -/

/-! ## Facts about the catalog -/

set_option maxRecDepth 4000 in
theorem catalog_entry_facts :
    ∀ E ∈ NORMAL_RANGES,
      lookupRange E.name = some E ∧ 0 ≤ E.min ∧ E.min ≤ E.max := by
  with_unfolding_all decide

/-! ## C8: unknown test names -/

/-- C8: a measurement whose name matches no catalog entry by exact
display-name lookup is classified `normal` with range `"Unknown"` and the
generic consult-your-doctor explanation, regardless of value and unit. -/
theorem C8_unknown_name (name : String) (value : ℚ) (unit : String)
    (h : lookupRange name = none) :
    (analyzeValue name value unit).status = Status.normal ∧
    (analyzeValue name value unit).normalRange = "Unknown" ∧
    (analyzeValue name value unit).explanation =
      "This test result was found in your bloodwork. We recommend consulting with your doctor about this value." := by
  simp [analyzeValue, h, unknownRes]

theorem C8_unknown_name_witness :
    lookupRange "Mystery Marker" = none ∧
    ((analyzeValue "Mystery Marker" 123456 "furlongs").status = Status.normal ∧
     (analyzeValue "Mystery Marker" 123456 "furlongs").normalRange = "Unknown" ∧
     (analyzeValue "Mystery Marker" 123456 "furlongs").explanation =
       "This test result was found in your bloodwork. We recommend consulting with your doctor about this value.") :=
  ⟨by decide, C8_unknown_name "Mystery Marker" 123456 "furlongs" (by decide)⟩

/-! ## C1: classification thresholds -/

/-- C1: for a measurement carrying a catalog entry's name and unit, the
classification of its value against the entry's `[min, max]` range is:
critical below `min * 0.7`; low in `[min * 0.7, min)`; critical above
`max * 1.5`; high in `(max, max * 1.5]`; normal in `[min, max]`. -/
theorem C1_classification_thresholds (E : RangeEntry) (hE : E ∈ NORMAL_RANGES)
    (v : ℚ) :
    (v < E.min * 0.7 → (analyzeValue E.name v E.unit).status = Status.critical) ∧
    (E.min * 0.7 ≤ v → v < E.min →
      (analyzeValue E.name v E.unit).status = Status.low) ∧
    (v > E.max * 1.5 → (analyzeValue E.name v E.unit).status = Status.critical) ∧
    (E.max < v → v ≤ E.max * 1.5 →
      (analyzeValue E.name v E.unit).status = Status.high) ∧
    (E.min ≤ v → v ≤ E.max →
      (analyzeValue E.name v E.unit).status = Status.normal) := by
  obtain ⟨hlook, hmin, hminmax⟩ := catalog_entry_facts E hE
  have hval : analyzeValue E.name v E.unit = classifyCore E v := by
    simp [analyzeValue, hlook, normalizeUnit]
  rw [hval]
  unfold classifyCore
  refine ⟨?_, ?_, ?_, ?_, ?_⟩
  · intro hb
    have h1 : v < E.min := by nlinarith
    rw [if_pos h1, if_pos hb]
  · intro hb1 hb2
    rw [if_pos hb2, if_neg (by linarith)]
  · intro hb
    have h1 : ¬ v < E.min := by nlinarith
    rw [if_neg h1, if_pos (by nlinarith), if_pos hb]
  · intro hb1 hb2
    have h1 : ¬ v < E.min := by linarith
    rw [if_neg h1, if_pos hb1, if_neg (by linarith)]
  · intro hb1 hb2
    rw [if_neg (by linarith), if_neg (by linarith)]

/-- Witness for C1: the glucose boundary examples from the claim
(69.9 → low, 48.9 → critical, 100.1 → high, 150.1 → critical, 85 → normal,
for min = 70, max = 100). -/
theorem C1_classification_thresholds_witness :
    (analyzeValue "Glucose (Fasting)" 69.9 "mg/dL").status = Status.low ∧
    (analyzeValue "Glucose (Fasting)" 48.9 "mg/dL").status = Status.critical ∧
    (analyzeValue "Glucose (Fasting)" 100.1 "mg/dL").status = Status.high ∧
    (analyzeValue "Glucose (Fasting)" 150.1 "mg/dL").status = Status.critical ∧
    (analyzeValue "Glucose (Fasting)" 85 "mg/dL").status = Status.normal := by
  have h69 := C1_classification_thresholds
    ⟨"glucose", 70, 100, "mg/dL", "Glucose (Fasting)"⟩ (by with_unfolding_all decide) 69.9
  have h48 := C1_classification_thresholds
    ⟨"glucose", 70, 100, "mg/dL", "Glucose (Fasting)"⟩ (by with_unfolding_all decide) 48.9
  have h100 := C1_classification_thresholds
    ⟨"glucose", 70, 100, "mg/dL", "Glucose (Fasting)"⟩ (by with_unfolding_all decide) 100.1
  have h150 := C1_classification_thresholds
    ⟨"glucose", 70, 100, "mg/dL", "Glucose (Fasting)"⟩ (by with_unfolding_all decide) 150.1
  have h85 := C1_classification_thresholds
    ⟨"glucose", 70, 100, "mg/dL", "Glucose (Fasting)"⟩ (by with_unfolding_all decide) 85
  exact ⟨h69.2.1 (by norm_num) (by norm_num),
         h48.1 (by norm_num),
         h100.2.2.2.1 (by norm_num) (by norm_num),
         h150.2.2.1 (by norm_num),
         h85.2.2.2.2 (by norm_num) (by norm_num)⟩

/-! ## C3: unit conversion -/

/-- C3: when a measurement's unit differs from its catalog entry's unit, the
value is scaled by 18 exactly when the entry's unit is `mg/dL` and the
measured unit contains `"mmol"` (lower-cased); for any other unit pair the
raw value is compared unchanged. -/
theorem C3_unit_conversion (E : RangeEntry) (hE : E ∈ NORMAL_RANGES)
    (v : ℚ) (u : String) (hu : u ≠ E.unit) :
    (E.unit = "mg/dL" ∧ "mmol".data <:+: lowerL u.data →
      analyzeValue E.name v u = classifyCore E (v * 18)) ∧
    (¬(E.unit = "mg/dL" ∧ "mmol".data <:+: lowerL u.data) →
      analyzeValue E.name v u = classifyCore E v) := by
  obtain ⟨hlook, -, -⟩ := catalog_entry_facts E hE
  constructor
  · intro hc
    simp only [analyzeValue, hlook, normalizeUnit]
    rw [if_pos hu, if_pos (show E.unit = "mg/dL" ∧
      (decide ("mmol".data <:+: lowerL u.data) = true) from
        ⟨hc.1, decide_eq_true hc.2⟩)]
  · intro hc
    simp only [analyzeValue, hlook, normalizeUnit]
    rw [if_pos hu, if_neg (by simpa using hc)]

/-- Witness for C3: a glucose measurement of 5 mmol/L is scaled to
5 × 18 = 90 mg/dL and classified normal. -/
theorem C3_unit_conversion_witness :
    ("mmol/L" : String) ≠ "mg/dL" ∧
    (5 : ℚ) * 18 = 90 ∧
    (analyzeValue "Glucose (Fasting)" 5 "mmol/L").status = Status.normal := by
  have h := (C3_unit_conversion ⟨"glucose", 70, 100, "mg/dL", "Glucose (Fasting)"⟩
    (by with_unfolding_all decide) 5 "mmol/L" (by decide)).1 ⟨rfl, by decide⟩
  refine ⟨by decide, by norm_num, ?_⟩
  rw [h]
  with_unfolding_all decide

/-! ## C5: summary branch selection -/

/-- C5: the summary selects exactly one branch by strict priority — any
critical measurement yields the critical-branch summary (citing the critical
count) and its two recommendations even when high/low measurements are also
present; otherwise any high or low measurement yields the neutral branch
citing the high and low counts separately; otherwise the all-normal branch —
and the closing sentence pointing at the detailed per-value results is
appended in every branch. -/
theorem C5_summary_priority (values : List Analyzed) :
    (0 < (values.filter (fun v => v.status = Status.critical)).length →
      generateSummary values =
        (critSummaryStr (values.filter (fun v => v.status = Status.critical)).length,
         critRecs)) ∧
    ((values.filter (fun v => v.status = Status.critical)).length = 0 →
     (0 < (values.filter (fun v => v.status = Status.high)).length ∨
      0 < (values.filter (fun v => v.status = Status.low)).length) →
      generateSummary values =
        (neutralSummaryStr (values.filter (fun v => v.status ≠ Status.normal)).length
           (values.filter (fun v => v.status = Status.high)).length
           (values.filter (fun v => v.status = Status.low)).length,
         neutralRecs)) ∧
    ((values.filter (fun v => v.status = Status.critical)).length = 0 →
     (values.filter (fun v => v.status = Status.high)).length = 0 →
     (values.filter (fun v => v.status = Status.low)).length = 0 →
      generateSummary values = (allNormalSummaryStr, normalRecs)) ∧
    (∃ s, (generateSummary values).1 = s ++ closingSentence) := by
  refine ⟨?_, ?_, ?_, ?_⟩
  · intro hc
    simp only [generateSummary, critSummaryStr, critRecs]
    rw [if_pos hc]
  · intro hc hhl
    simp only [generateSummary, neutralSummaryStr, neutralRecs]
    rw [if_neg (by omega),
      if_pos (by simp only [Bool.or_eq_true, decide_eq_true_eq]; exact hhl)]
  · intro hc hh hl
    simp only [generateSummary, allNormalSummaryStr, normalRecs]
    rw [if_neg (by omega),
      if_neg (by simp only [Bool.or_eq_true, decide_eq_true_eq]; omega)]
  · simp only [generateSummary]
    split_ifs <;> exact ⟨_, rfl⟩

/-- Witness for C5: one critical value alongside a high value still selects
the critical branch. -/
theorem C5_summary_priority_witness :
    0 < (([⟨"A", 1, "u", Status.critical, "r", "e"⟩,
           ⟨"B", 2, "u", Status.high, "r", "e"⟩] : List Analyzed).filter
          (fun v => v.status = Status.critical)).length ∧
    generateSummary [⟨"A", 1, "u", Status.critical, "r", "e"⟩,
        ⟨"B", 2, "u", Status.high, "r", "e"⟩] =
      (critSummaryStr (([⟨"A", 1, "u", Status.critical, "r", "e"⟩,
           ⟨"B", 2, "u", Status.high, "r", "e"⟩] : List Analyzed).filter
          (fun v => v.status = Status.critical)).length,
       critRecs) :=
  ⟨by decide,
   (C5_summary_priority [⟨"A", 1, "u", Status.critical, "r", "e"⟩,
      ⟨"B", 2, "u", Status.high, "r", "e"⟩]).1 (by decide)⟩

/-! ## C6: flagged count -/

/-- C6: for every successful parse, the screening result's `flaggedCount`
equals the number of classified measurements whose status is not normal. -/
theorem C6_flagged_count (text : String) (r : ScreeningCore)
    (h : processText text = some r) :
    r.flaggedCount = r.values.countP (fun v => v.status ≠ Status.normal) := by
  simp only [processText] at h
  by_cases hp : (parseBloodworkText text).length = 0
  · rw [if_pos hp] at h
    exact Option.noConfusion h
  · rw [if_neg hp, Option.some_inj] at h
    subst h
    simp [List.countP_eq_length_filter]

theorem C6_flagged_count_witness :
    (processText "Hemoglobin: 14 g/dL").elim False
      (fun r => r.flaggedCount =
        r.values.countP (fun v => v.status ≠ Status.normal)) := by
  rcases hr : processText "Hemoglobin: 14 g/dL" with - | r
  · exact absurd hr (by with_unfolding_all decide)
  · simpa using C6_flagged_count "Hemoglobin: 14 g/dL" r hr

/-! ## C9: temporary-file cleanup -/

/-- C9: on every execution path of the upload handler after the uploaded
buffer is staged to the temporary file — successful extraction, extraction
failure, and the unsupported-image early return — the staged file is removed
(the handler's final filesystem operation is the unlink of the staged path,
and the staged path is absent from the final filesystem state). -/
theorem C9_temp_file_cleanup (tempFilePath : String) (outcome : ExtractOutcome)
    (fs0 : List String) :
    (handleUpload tempFilePath outcome).1.getLast? =
      some (FsOp.unlink tempFilePath) ∧
    tempFilePath ∉ runFs fs0 (handleUpload tempFilePath outcome).1 := by
  cases outcome <;>
    simp [handleUpload, runFs, applyFs, List.mem_filter]

/-! ## Deduplication lemmas (for C4 and C10) -/

theorem mem_flatM {f : α → List β} {l : List α} {b : β} :
    b ∈ flatM f l ↔ ∃ a ∈ l, b ∈ f a := by
  induction l with
  | nil => simp [flatM]
  | cons a t ih => simp [flatM, ih]

theorem jsFindIndex_nonneg (p : α → Bool) (l : List α)
    (h : ∃ x ∈ l, p x) : 0 ≤ jsFindIndex p l := by
  induction l with
  | nil => simp at h
  | cons a t ih =>
    obtain ⟨x, hx, hpx⟩ := h
    unfold jsFindIndex
    by_cases hpa : p a
    · simp [hpa]
    · rcases List.mem_cons.mp hx with rfl | hx
      · exact absurd hpx hpa
      · have h0 := ih ⟨x, hx, hpx⟩
        rw [if_neg hpa, if_neg (by omega)]
        omega

theorem jsFindIndex_eq_length_iff (p : α → Bool) (pre : List α) (m : α)
    (t : List α) (hm : p m = true) :
    ((pre.length : Int) = jsFindIndex p (pre ++ m :: t) ↔
      ∀ x ∈ pre, ¬ p x) := by
  induction pre with
  | nil =>
    simp [jsFindIndex, hm]
  | cons a pre ih =>
    by_cases hpa : p a
    · simp only [List.cons_append, jsFindIndex, hpa, if_true,
        List.length_cons]
      constructor
      · intro h; exact absurd h (by omega)
      · intro h; exact absurd hpa (h a (by simp))
    · have hnn : 0 ≤ jsFindIndex p (pre ++ m :: t) :=
        jsFindIndex_nonneg p _ ⟨m, by simp, hm⟩
      simp only [List.cons_append, jsFindIndex, hpa, Bool.false_eq_true,
        if_false, List.length_cons, List.append_eq]
      have hcond : ¬ jsFindIndex p (pre ++ m :: t) < 0 := by omega
      rw [if_neg hcond]
      constructor
      · intro h x hx
        rcases List.mem_cons.mp hx with rfl | hx
        · exact hpa
        · exact (ih.mp (by omega)) x hx
      · intro h
        have h2 : (pre.length : Int) = jsFindIndex p (pre ++ m :: t) :=
          ih.mpr (fun x hx => h x (by simp [hx]))
        omega

theorem dedupAcc_congr {seen₁ seen₂ : List String}
    (h : ∀ n, n ∈ seen₁ ↔ n ∈ seen₂) :
    ∀ t, dedupAcc seen₁ t = dedupAcc seen₂ t := by
  intro t
  induction t generalizing seen₁ seen₂ with
  | nil => rfl
  | cons m t ih =>
    unfold dedupAcc
    by_cases hmem : m.name ∈ seen₁
    · rw [if_pos hmem, if_pos ((h m.name).mp hmem)]
      exact ih h
    · rw [if_neg hmem, if_neg (fun hc => hmem ((h m.name).mpr hc))]
      congr 1
      exact ih (fun n => by simp [h n])

theorem jsFilterIdx_eq_dedupAcc :
    ∀ (t pre : List Measurement),
      jsFilterIdx (pre ++ t) pre.length t =
        dedupAcc (pre.map (fun m => m.name)) t := by
  intro t
  induction t with
  | nil => intro pre; rfl
  | cons m t ih =>
    intro pre
    have hkey := jsFindIndex_eq_length_iff
      (fun r => decide (r.name = m.name)) pre m t (by simp)
    have hshift :
        jsFilterIdx (pre ++ m :: t) (pre.length + 1) t =
          dedupAcc ((pre ++ [m]).map (fun x => x.name)) t := by
      have := ih (pre ++ [m])
      simpa [List.append_assoc] using this
    unfold jsFilterIdx dedupAcc
    by_cases hseen : m.name ∈ pre.map (fun x => x.name)
    · have hne : ¬ (pre.length : Int) =
          jsFindIndex (fun r => r.name = m.name) (pre ++ m :: t) := by
        intro hcontra
        obtain ⟨x, hx, hxn⟩ := List.mem_map.mp hseen
        exact absurd (by simp [hxn]) (hkey.mp hcontra x hx)
      rw [if_neg hne, if_pos hseen, hshift]
      refine dedupAcc_congr (fun n => ?_) t
      constructor
      · intro h
        rcases List.mem_map.mp h with ⟨x, hx, rfl⟩
        rcases List.mem_append.mp hx with hx2 | hx2
        · exact List.mem_map.mpr ⟨x, hx2, rfl⟩
        · rcases List.mem_singleton.mp hx2 with rfl
          exact hseen
      · intro h
        rcases List.mem_map.mp h with ⟨x, hx, rfl⟩
        exact List.mem_map.mpr ⟨x, List.mem_append.mpr (Or.inl hx), rfl⟩
    · have heq : (pre.length : Int) =
          jsFindIndex (fun r => r.name = m.name) (pre ++ m :: t) := by
        apply hkey.mpr
        intro x hx hpx
        exact hseen (List.mem_map.mpr ⟨x, hx, by simpa using hpx⟩)
      rw [if_pos heq, if_neg hseen, hshift]
      congr 1
      exact dedupAcc_congr (fun n => by simp [or_comm]) t

theorem jsDedup_eq_dedupAcc (l : List Measurement) :
    jsDedup l = dedupAcc [] l := by
  simpa using jsFilterIdx_eq_dedupAcc l []

theorem dedupAcc_sublist (seen : List String) :
    ∀ t : List Measurement, (dedupAcc seen t).Sublist t := by
  intro t
  induction t generalizing seen with
  | nil => simp [dedupAcc]
  | cons m t ih =>
    unfold dedupAcc
    by_cases hmem : m.name ∈ seen
    · rw [if_pos hmem]
      exact (ih seen).cons m
    · rw [if_neg hmem]
      exact (ih (m.name :: seen)).cons₂ m

theorem dedupAcc_names_nodup (seen : List String) :
    ∀ t : List Measurement,
      (∀ m ∈ dedupAcc seen t, m.name ∉ seen) ∧
      ((dedupAcc seen t).map (fun m => m.name)).Nodup := by
  intro t
  induction t generalizing seen with
  | nil => simp [dedupAcc]
  | cons m t ih =>
    unfold dedupAcc
    by_cases hmem : m.name ∈ seen
    · rw [if_pos hmem]
      exact ih seen
    · rw [if_neg hmem]
      obtain ⟨hdisj, hnd⟩ := ih (m.name :: seen)
      refine ⟨?_, ?_⟩
      · intro x hx
        rcases List.mem_cons.mp hx with rfl | hx
        · exact hmem
        · intro hc
          exact hdisj x hx (by simp [hc])
      · refine List.Nodup.cons ?_ hnd
        intro hc
        obtain ⟨x, hx, hxn⟩ := List.mem_map.mp hc
        exact hdisj x hx (by simp [hxn])

theorem dedupAcc_find? (n : String) :
    ∀ (t : List Measurement) (seen : List String), n ∉ seen →
      (dedupAcc seen t).find? (fun m => m.name = n) =
        t.find? (fun m => m.name = n) := by
  intro t
  induction t with
  | nil => intro seen _; rfl
  | cons m t ih =>
    intro seen hn
    unfold dedupAcc
    by_cases hmem : m.name ∈ seen
    · rw [if_pos hmem]
      have hne : ¬ m.name = n := fun hc => hn (hc ▸ hmem)
      rw [List.find?_cons_of_neg _ (by simp only [decide_eq_true_eq]; exact hne)]
      exact ih seen hn
    · rw [if_neg hmem]
      by_cases hmn : m.name = n
      · rw [List.find?_cons_of_pos _ (by simp only [decide_eq_true_eq]; exact hmn),
          List.find?_cons_of_pos _ (by simp only [decide_eq_true_eq]; exact hmn)]
      · rw [List.find?_cons_of_neg _ (by simp only [decide_eq_true_eq]; exact hmn),
          List.find?_cons_of_neg _ (by simp only [decide_eq_true_eq]; exact hmn)]
        refine ih (m.name :: seen) ?_
        simp only [List.mem_cons]
        push_neg
        exact ⟨fun hc => hmn hc.symm, hn⟩

theorem dedupAcc_covers (seen : List String) :
    ∀ t : List Measurement, ∀ m ∈ t, m.name ∉ seen →
      ∃ m2 ∈ dedupAcc seen t, m2.name = m.name := by
  intro t
  induction t generalizing seen with
  | nil => intro m hm; simp at hm
  | cons a t ih =>
    intro m hm hseen
    unfold dedupAcc
    by_cases hmem : a.name ∈ seen
    · rw [if_pos hmem]
      rcases List.mem_cons.mp hm with rfl | hm
      · exact absurd hmem hseen
      · exact ih seen m hm hseen
    · rw [if_neg hmem]
      rcases List.mem_cons.mp hm with rfl | hm
      · exact ⟨m, by simp⟩
      · by_cases hname : m.name = a.name
        · exact ⟨a, by simp, hname.symm⟩
        · refine ?_
          obtain ⟨m2, hm2, hm2n⟩ := ih (a.name :: seen) m hm
            (by simp only [List.mem_cons]; push_neg; exact ⟨hname, hseen⟩)
          exact ⟨m2, by simp [hm2], hm2n⟩

/-! ## C4: deduplication -/

/-- C4: the extraction output contains at most one measurement per distinct
display name (the name list Is duplicate-free); the output is a subsequence of
the raw append-order measurement list (so first-seen order is preserved
across the whole document); for every display name the surviving measurement
is the first one appended for that name (the `find?` of output and raw list
agree); and no name is lost. -/
theorem C4_first_wins_dedup (text : String) :
    (parseBloodworkText text).Sublist (rawResults text.data) ∧
    ((parseBloodworkText text).map (fun m => m.name)).Nodup ∧
    (∀ n : String,
      (parseBloodworkText text).find? (fun m => m.name = n) =
        (rawResults text.data).find? (fun m => m.name = n)) ∧
    (∀ m ∈ rawResults text.data,
      ∃ m2 ∈ parseBloodworkText text, m2.name = m.name) := by
  have hd : parseBloodworkText text = dedupAcc [] (rawResults text.data) := by
    rw [parseBloodworkText, parseBloodworkLC, jsDedup_eq_dedupAcc]
  rw [hd]
  exact ⟨dedupAcc_sublist [] _,
    (dedupAcc_names_nodup [] _).2,
    fun n => dedupAcc_find? n _ [] (by simp),
    fun m hm => dedupAcc_covers [] _ m hm (by simp)⟩

/-- Witness for C4 on a document with two lines naming the same test with
different values: the first-encountered value survives. -/
theorem C4_first_wins_dedup_witness :
    (⟨"Glucose (Fasting)", 90, "mg/dL"⟩ : Measurement) ∈
      rawResults "Glucose: 250 mg/dL\nGlucose: 90 mg/dL".data ∧
    (∃ m2 ∈ parseBloodworkText "Glucose: 250 mg/dL\nGlucose: 90 mg/dL",
      m2.name = (⟨"Glucose (Fasting)", 90, "mg/dL"⟩ : Measurement).name) ∧
    parseBloodworkText "Glucose: 250 mg/dL\nGlucose: 90 mg/dL" =
      [⟨"Glucose (Fasting)", 250, "mg/dL"⟩] := by
  refine ⟨by with_unfolding_all decide, ?_, by with_unfolding_all decide⟩
  exact (C4_first_wins_dedup "Glucose: 250 mg/dL\nGlucose: 90 mg/dL").2.2.2
    ⟨"Glucose (Fasting)", 90, "mg/dL"⟩ (by with_unfolding_all decide)

/-! ## C10: extracted names come from the catalog -/

theorem catalogStep_name {line : List Char} {r : RangeEntry} {m : Measurement}
    (hm : m ∈ catalogStep line r) : m.name = r.name := by
  unfold catalogStep at hm
  split at hm
  · split at hm
    · split at hm
      · simp at hm
        rw [hm]
      · simp at hm
    · simp at hm
  · simp at hm

theorem pushKnown_name {tn : List Char} {q : ℚ} {u : List Char}
    {m : Measurement} (hm : m ∈ pushKnown tn q u) :
    ∃ r ∈ NORMAL_RANGES, m.name = r.name := by
  unfold pushKnown at hm
  split at hm
  · next r heq =>
    refine ⟨r, List.mem_of_find?_eq_some heq, ?_⟩
    simp at hm
    rw [hm]
  · simp at hm

theorem procGeneric_name {caps : Caps} {m : Measurement}
    (hm : m ∈ procGeneric caps) :
    ∃ r ∈ NORMAL_RANGES, m.name = r.name := by
  simp only [procGeneric] at hm
  repeat' split at hm
  all_goals first
    | exact pushKnown_name hm
    | simp at hm

theorem rawResults_names {text : List Char} {m : Measurement}
    (hm : m ∈ rawResults text) : ∃ r ∈ NORMAL_RANGES, m.name = r.name := by
  unfold rawResults at hm
  obtain ⟨line, -, hline⟩ := mem_flatM.mp hm
  unfold lineResults at hline
  rcases List.mem_append.mp hline with h | h
  · rcases List.mem_append.mp h with h2 | h2
    · obtain ⟨r, hr, hmr⟩ := mem_flatM.mp h2
      exact ⟨r, hr, catalogStep_name hmr⟩
    · obtain ⟨caps, -, hcaps⟩ := mem_flatM.mp h2
      exact procGeneric_name hcaps
  · obtain ⟨caps, -, hcaps⟩ := mem_flatM.mp h
    exact procGeneric_name hcaps

theorem classifyCore_range (r : RangeEntry) (x : ℚ) :
    (classifyCore r x).normalRange = rangeStr r := by
  unfold classifyCore
  split_ifs <;> rfl

set_option maxRecDepth 4000 in
theorem rangeStr_ne_unknown :
    ∀ E ∈ NORMAL_RANGES, rangeStr E ≠ "Unknown" := by
  with_unfolding_all decide

/-- C10: every measurement emitted by value extraction carries one of the
catalog's display names (both the catalog-driven path and the generic-regex
path copy the catalog entry's display name), so the `"Unknown"`-range branch
of classification is unreachable for measurements produced by the pipeline. -/
theorem C10_names_in_catalog (text : String) (m : Measurement)
    (hm : m ∈ parseBloodworkText text) :
    (∃ E ∈ NORMAL_RANGES, m.name = E.name) ∧
    (lookupRange m.name).isSome ∧
    (∀ (v : ℚ) (u : String), (analyzeValue m.name v u).normalRange ≠ "Unknown") := by
  have hraw : m ∈ rawResults text.data := by
    have hd : parseBloodworkText text = dedupAcc [] (rawResults text.data) := by
      rw [parseBloodworkText, parseBloodworkLC, jsDedup_eq_dedupAcc]
    exact (dedupAcc_sublist [] _).subset (hd ▸ hm)
  obtain ⟨E, hE, hname⟩ := rawResults_names hraw
  refine ⟨⟨E, hE, hname⟩, ?_, ?_⟩
  · unfold lookupRange
    rw [List.find?_isSome]
    exact ⟨E, hE, by simp [hname]⟩
  · intro v u
    unfold analyzeValue
    cases hfind : lookupRange m.name with
    | none =>
      unfold lookupRange at hfind
      rw [List.find?_eq_none] at hfind
      exact absurd (by simp [hname]) (hfind E hE)
    | some E2 =>
      rw [classifyCore_range]
      exact rangeStr_ne_unknown E2 (List.mem_of_find?_eq_some hfind)

/-- Witness for C10 at a concrete parse output. -/
theorem C10_names_in_catalog_witness :
    (⟨"Hemoglobin", 14, "g/dL"⟩ : Measurement) ∈
      parseBloodworkText "Hemoglobin: 14 g/dL" ∧
    (lookupRange "Hemoglobin").isSome ∧
    (analyzeValue "Hemoglobin" 1 "x").normalRange ≠ "Unknown" := by
  have hmem : (⟨"Hemoglobin", 14, "g/dL"⟩ : Measurement) ∈
      parseBloodworkText "Hemoglobin: 14 g/dL" := by
    with_unfolding_all decide
  have h := C10_names_in_catalog "Hemoglobin: 14 g/dL" ⟨"Hemoglobin", 14, "g/dL"⟩ hmem
  exact ⟨hmem, h.2.1, h.2.2 1 "x"⟩

/-! ## Generic matcher lemmas (for C2) -/

theorem mtch_seq (a b : RE) (s : List Char) (caps : Caps)
    (k : List Char → Caps → MRes) :
    mtch (.seq a b) s caps k = mtch a s caps (fun s1 c1 => mtch b s1 c1 k) := by
  simp [mtch]

theorem mtch_grp (i : ℕ) (a : RE) (s : List Char) (caps : Caps)
    (k : List Char → Caps → MRes) :
    mtch (.grp i a) s caps k =
      mtch a s caps
        (fun s1 c1 => k s1 ((i, s.take (s.length - s1.length)) :: c1)) := by
  simp [mtch]

theorem mtch_cls_cons (p : Char → Bool) (c : Char) (t : List Char)
    (caps : Caps) (k : List Char → Caps → MRes) :
    mtch (.cls p) (c :: t) caps k = if p c then k t caps else none := rfl

theorem mtch_lit_cons_iff (a c : Char) (t : List Char) (caps : Caps)
    (k : List Char → Caps → MRes) :
    mtch (.lit a) (c :: t) caps k = if c = a then k t caps else none := rfl

theorem mtch_plus_cons (p : Char → Bool) (c : Char) (t : List Char)
    (caps : Caps) (k : List Char → Caps → MRes) :
    mtch (.plus p) (c :: t) caps k =
      if p c then starM p t caps k else none := rfl

theorem mtch_lit_cons (a : Char) (t : List Char) (caps : Caps)
    (k : List Char → Caps → MRes) :
    mtch (.lit a) (a :: t) caps k = k t caps := by
  rw [mtch_lit_cons_iff, if_pos rfl]

theorem mtch_opt_of_some (a : RE) (s : List Char) (caps : Caps)
    (k : List Char → Caps → MRes) (res : List Char × Caps)
    (h : mtch a s caps k = some res) :
    mtch (.opt a) s caps k = some res := by
  simp [mtch, h]

theorem mtch_opt_of_none (a : RE) (s : List Char) (caps : Caps)
    (k : List Char → Caps → MRes)
    (h : mtch a s caps k = none) :
    mtch (.opt a) s caps k = k s caps := by
  simp [mtch, h]

/-- A star over a class skips nothing when the input does not start with a
class character. -/
theorem starM_head_not (p : Char → Bool) (s : List Char) (caps : Caps)
    (k : List Char → Caps → MRes)
    (h : ∀ c l, s = c :: l → p c = false) :
    starM p s caps k = k s caps := by
  cases s with
  | nil => rfl
  | cons c l =>
    unfold starM
    rw [if_neg (by simp [h c l rfl])]

/-- Greedy success of a star: if every character of `a` is in the class, the
input continues with a non-class character (or ends), and the continuation
succeeds after `a`, the star consumes exactly `a`. -/
theorem starM_run_some (p : Char → Bool) (a rest : List Char) (caps : Caps)
    (k : List Char → Caps → MRes) (res : List Char × Caps)
    (ha : ∀ c ∈ a, p c = true)
    (hrest : ∀ c l, rest = c :: l → p c = false)
    (hk : k rest caps = some res) :
    starM p (a ++ rest) caps k = some res := by
  induction a with
  | nil => rw [List.nil_append, starM_head_not p rest caps k hrest]; exact hk
  | cons c a ih =>
    have hc : p c = true := ha c (by simp)
    rw [List.cons_append]
    unfold starM
    rw [if_pos hc, ih (fun d hd => ha d (by simp [hd]))]

theorem mtch_plus_run (p : Char → Bool) (a rest : List Char) (caps : Caps)
    (k : List Char → Caps → MRes) (res : List Char × Caps)
    (hne : a ≠ [])
    (ha : ∀ c ∈ a, p c = true)
    (hrest : ∀ c l, rest = c :: l → p c = false)
    (hk : k rest caps = some res) :
    mtch (.plus p) (a ++ rest) caps k = some res := by
  cases a with
  | nil => exact absurd rfl hne
  | cons c a =>
    rw [List.cons_append, mtch_plus_cons, if_pos (ha c (by simp))]
    exact starM_run_some p a rest caps k res (fun d hd => ha d (by simp [hd]))
      hrest hk

/-- A match can only hand the continuation a suffix of its input, so if the
continuation fails on every suffix the match fails. -/
theorem starM_none_of_k_none (p : Char → Bool) (s : List Char) (caps : Caps)
    (k : List Char → Caps → MRes)
    (hf : ∀ s2 caps2, s2 <:+ s → k s2 caps2 = none) :
    starM p s caps k = none := by
  induction s generalizing caps with
  | nil => exact hf [] caps (by simp)
  | cons c t ih =>
    unfold starM
    by_cases hc : p c
    · rw [if_pos hc,
        ih caps (fun s2 caps2 hs2 => hf s2 caps2 (hs2.trans (by simp))),
        hf (c :: t) caps (by simp)]
    · rw [if_neg hc]
      exact hf (c :: t) caps (by simp)

theorem mtch_none_of_k_none (re : RE) (s : List Char) (caps : Caps)
    (k : List Char → Caps → MRes)
    (hf : ∀ s2 caps2, s2 <:+ s → k s2 caps2 = none) :
    mtch re s caps k = none := by
  induction re generalizing s caps k with
  | cls p =>
    cases s with
    | nil => rfl
    | cons c t =>
      rw [mtch_cls_cons]
      by_cases hc : p c
      · rw [if_pos hc]; exact hf t caps (by simp)
      · rw [if_neg hc]
  | lit a =>
    cases s with
    | nil => rfl
    | cons c t =>
      rw [mtch_lit_cons_iff]
      by_cases hc : c = a
      · rw [if_pos hc]; exact hf t caps (by simp)
      · rw [if_neg hc]
  | seq a b iha ihb =>
    rw [mtch_seq]
    exact iha s caps _ (fun s1 c1 hs1 =>
      ihb s1 c1 k (fun s2 caps2 hs2 => hf s2 caps2 (hs2.trans hs1)))
  | opt a iha =>
    unfold mtch
    rw [iha s caps k hf]
    exact hf s caps (by simp)
  | star p => exact starM_none_of_k_none p s caps k hf
  | plus p =>
    cases s with
    | nil => rfl
    | cons c t =>
      rw [mtch_plus_cons]
      by_cases hc : p c
      · rw [if_pos hc]
        exact starM_none_of_k_none p t caps k
          (fun s2 caps2 hs2 => hf s2 caps2 (hs2.trans (by simp)))
      · rw [if_neg hc]
  | grp i a iha =>
    rw [mtch_grp]
    exact iha s caps _ (fun s1 c1 hs1 => hf s1 _ hs1)

/-- Suffixes of `a ++ b` are suffixes of `b` or a nonempty suffix of `a`
followed by `b`. -/
theorem suffix_append_cases {s2 a b : List α} (h : s2 <:+ a ++ b) :
    s2 <:+ b ∨ ∃ a2, a2 <:+ a ∧ a2 ≠ [] ∧ s2 = a2 ++ b := by
  induction a with
  | nil => exact Or.inl (by simpa using h)
  | cons c a ih =>
    rw [List.cons_append, List.suffix_cons_iff] at h
    rcases h with rfl | h
    · exact Or.inr ⟨c :: a, by simp, by simp⟩
    · rcases ih h with h2 | ⟨a2, ha2, hne, rfl⟩
      · exact Or.inl h2
      · exact Or.inr ⟨a2, ha2.trans (by simp), hne, rfl⟩

theorem take_append_cancel (a b : List α) :
    (a ++ b).take ((a ++ b).length - b.length) = a := by
  rw [List.length_append, Nat.add_sub_cancel]
  exact List.take_left a b

/-! ## Character-class facts -/

theorem digit_not_ws {c : Char} (h : isDigitC c = true) : isWsC c = false := by
  by_contra hw
  rw [Bool.not_eq_false] at hw
  simp only [isWsC, Bool.or_eq_true, decide_eq_true_eq] at hw
  rcases hw with rfl | rfl | rfl | rfl <;> exact absurd h (by decide)

theorem digit_not_alpha {c : Char} (h : isDigitC c = true) :
    isAlphaC c = false := by
  simp only [isDigitC, Bool.and_eq_true, decide_eq_true_eq] at h
  by_contra ha
  rw [Bool.not_eq_false] at ha
  simp only [isAlphaC, Bool.or_eq_true, Bool.and_eq_true, decide_eq_true_eq] at ha
  rcases ha with ⟨h1, -⟩ | ⟨h1, -⟩
  · exact absurd (le_trans h1 h.2) (by decide)
  · exact absurd (le_trans h1 h.2) (by decide)

theorem digit_not_unit {c : Char} (h : isDigitC c = true) :
    isUnitC c = false := by
  simp only [isUnitC, digit_not_alpha h, Bool.false_or, Bool.or_eq_false_iff,
    decide_eq_false_iff_not]
  constructor <;> rintro rfl <;> exact absurd h (by decide)

theorem digit_not_name {c : Char} (h : isDigitC c = true) :
    isNameC c = false := by
  simp [isNameC, digit_not_alpha h, digit_not_ws h]

theorem digit_ne_dot {c : Char} (h : isDigitC c = true) : ¬ c = '.' := by
  rintro rfl; exact absurd h (by decide)

theorem digit_ne_colon {c : Char} (h : isDigitC c = true) : ¬ c = ':' := by
  rintro rfl; exact absurd h (by decide)

theorem digit_ne_nl {c : Char} (h : isDigitC c = true) : ¬ c = '\n' := by
  rintro rfl; exact absurd h (by decide)

theorem unit_not_ws {c : Char} (h : isUnitC c = true) : isWsC c = false := by
  simp only [isUnitC, Bool.or_eq_true, decide_eq_true_eq] at h
  by_contra hw
  rw [Bool.not_eq_false] at hw
  simp only [isWsC, Bool.or_eq_true, decide_eq_true_eq] at hw
  rcases hw with rfl | rfl | rfl | rfl <;>
    rcases h with (h | h) | h <;>
    exact absurd h (by decide)

/-! ## Runs of the source regexes over symbolic decimals (for C2) -/

theorem mtch_star (p : Char → Bool) (s : List Char) (caps : Caps)
    (k : List Char → Caps → MRes) :
    mtch (.star p) s caps k = starM p s caps k := rfl

theorem numStr_chars {ip fp : List Char} {c : Char}
    (hipd : ∀ c ∈ ip, isDigitC c = true) (hfpd : ∀ c ∈ fp, isDigitC c = true)
    (hc : c ∈ numStr ip fp) : isDigitC c = true ∨ c = '.' := by
  unfold numStr at hc
  rcases List.mem_append.mp hc with h | h
  · exact Or.inl (hipd c h)
  · by_cases hfp : fp = []
    · rw [if_pos hfp] at h; simp at h
    · rw [if_neg hfp] at h
      rcases List.mem_cons.mp h with rfl | h
      · exact Or.inr rfl
      · exact Or.inl (hfpd c h)

/-- The number group `(\d+\.?\d*)` greedily consumes a whole decimal numeral
`ip ++ "." ++ fp` when the remainder starts with neither a digit nor a dot,
capturing the numeral. -/
theorem mtch_grpNum_run (i : ℕ) (ip fp rest : List Char) (caps : Caps)
    (k : List Char → Caps → MRes) (res : List Char × Caps)
    (hip : ip ≠ []) (hipd : ∀ c ∈ ip, isDigitC c = true)
    (hfpd : ∀ c ∈ fp, isDigitC c = true)
    (hrest : ∀ c l, rest = c :: l → isDigitC c = false ∧ c ≠ '.')
    (hk : k rest ((i, numStr ip fp) :: caps) = some res) :
    mtch (.grp i reNum) (numStr ip fp ++ rest) caps k = some res := by
  rw [mtch_grp]
  unfold reNum
  rw [mtch_seq]
  by_cases hfp : fp = []
  · subst hfp
    have hns : numStr ip [] = ip := by simp [numStr]
    rw [hns] at hk ⊢
    apply mtch_plus_run isDigitC ip rest caps _ res hip hipd
      (fun c l h => (hrest c l h).1)
    rw [mtch_seq]
    rw [mtch_opt_of_none _ _ _ _ (by
      cases rest with
      | nil => rfl
      | cons c l => rw [mtch_lit_cons_iff, if_neg (hrest c l rfl).2])]
    rw [mtch_star, starM_head_not _ _ _ _ (fun c l h => (hrest c l (by rw [h])).1)]
    rw [take_append_cancel]
    exact hk
  · have hns : numStr ip fp = ip ++ '.' :: fp := by simp [numStr, hfp]
    rw [hns] at hk ⊢
    rw [List.append_assoc, List.cons_append]
    apply mtch_plus_run isDigitC ip ('.' :: (fp ++ rest)) caps _ res hip hipd
      (fun c l h => by
        rw [List.cons_eq_cons] at h
        rw [← h.1]; decide)
    rw [mtch_seq]
    apply mtch_opt_of_some
    rw [mtch_lit_cons]
    rw [mtch_star]
    apply starM_run_some isDigitC fp rest _ _ res hfpd
      (fun c l h => (hrest c l h).1)
    rw [show ip ++ '.' :: (fp ++ rest) = (ip ++ '.' :: fp) ++ rest by simp,
      take_append_cancel]
    exact hk

/-- The unit group `([a-zA-Z\/%]+)` greedily consumes a whole unit-class run
when the remainder starts with a non-unit character, capturing it. -/
theorem mtch_grpUnit_run (i : ℕ) (U rest : List Char) (caps : Caps)
    (k : List Char → Caps → MRes) (res : List Char × Caps)
    (hU : U ≠ []) (hUc : ∀ c ∈ U, isUnitC c = true)
    (hrest : ∀ c l, rest = c :: l → isUnitC c = false)
    (hk : k rest ((i, U) :: caps) = some res) :
    mtch (.grp i (.plus isUnitC)) (U ++ rest) caps k = some res := by
  rw [mtch_grp]
  apply mtch_plus_run isUnitC U rest caps _ res hU hUc hrest
  rw [take_append_cancel]
  exact hk

/-- `mtch_grpUnit_run` specialized to a unit token ending the line. -/
theorem mtch_grpUnit_run_end (i : ℕ) (U : List Char) (caps : Caps)
    (k : List Char → Caps → MRes) (res : List Char × Caps)
    (hU : U ≠ []) (hUc : ∀ c ∈ U, isUnitC c = true)
    (hk : k [] ((i, U) :: caps) = some res) :
    mtch (.grp i (.plus isUnitC)) U caps k = some res := by
  have h := mtch_grpUnit_run i U [] caps k res hU hUc
    (fun c l hcl => by cases hcl) hk
  simpa using h

/-- The test-name group on a parenthesis-free name: consume the whole name,
stopping at a remainder that is outside `[A-Za-z\s]` and is not `(`. -/
theorem mtch_nameGrp_run_plain (i : ℕ) (N rest : List Char) (caps : Caps)
    (k : List Char → Caps → MRes) (res : List Char × Caps)
    (hN : N ≠ []) (hNc : ∀ c ∈ N, isNameC c = true)
    (hrest : ∀ c l, rest = c :: l → isNameC c = false ∧ c ≠ '(')
    (hk : k rest ((i, N) :: caps) = some res) :
    mtch (reNameGrp i) (N ++ rest) caps k = some res := by
  unfold reNameGrp
  rw [mtch_grp, mtch_seq]
  apply mtch_plus_run isNameC N rest caps _ res hN hNc
    (fun c l h => (hrest c l h).1)
  rw [mtch_opt_of_none _ _ _ _ (by
    rw [mtch_seq]
    cases rest with
    | nil => rfl
    | cons c l => rw [mtch_lit_cons_iff, if_neg (hrest c l rfl).2])]
  rw [take_append_cancel]
  exact hk

/-- The test-name group on a name of the shape `W(Q)`: the letter run
consumes `W`, the optional parenthesis group consumes `(Q)`, and the whole
name is captured. -/
theorem mtch_nameGrp_run_paren (i : ℕ) (W Q rest : List Char) (caps : Caps)
    (k : List Char → Caps → MRes) (res : List Char × Caps)
    (hW : W ≠ []) (hWc : ∀ c ∈ W, isNameC c = true)
    (hQ : Q ≠ []) (hQc : ∀ c ∈ Q, isNotRParen c = true)
    (hrest : ∀ c l, rest = c :: l → isNameC c = false)
    (hk : k rest ((i, W ++ '(' :: (Q ++ [')'])) :: caps) = some res) :
    mtch (reNameGrp i) ((W ++ '(' :: (Q ++ [')'])) ++ rest) caps k =
      some res := by
  unfold reNameGrp
  rw [mtch_grp, mtch_seq]
  rw [show (W ++ '(' :: (Q ++ [')'])) ++ rest =
    W ++ '(' :: (Q ++ ')' :: rest) by simp]
  apply mtch_plus_run isNameC W ('(' :: (Q ++ ')' :: rest)) caps _ res hW hWc
    (fun c l h => by
      rw [List.cons_eq_cons] at h
      rw [← h.1]; decide)
  apply mtch_opt_of_some
  rw [mtch_seq, mtch_lit_cons, mtch_seq]
  apply mtch_plus_run isNotRParen Q (')' :: rest) caps _ res hQ hQc
    (fun c l h => by
      rw [List.cons_eq_cons] at h
      rw [← h.1]; decide)
  rw [mtch_lit_cons]
  rw [show W ++ '(' :: (Q ++ ')' :: rest) = (W ++ '(' :: (Q ++ [')'])) ++ rest
    by simp]
  rw [take_append_cancel]
  exact hk

/-! ## Failure lemmas for the source regexes (for C2) -/

theorem reNumUnit_headfail (c : Char) (t : List Char) (caps : Caps)
    (k : List Char → Caps → MRes) (h : isDigitC c = false) :
    mtch reNumUnit (c :: t) caps k = none := by
  unfold reNumUnit reNum
  rw [mtch_seq, mtch_grp, mtch_seq, mtch_plus_cons, if_neg (by simp [h])]

theorem tryP2_headfail (c : Char) (t : List Char) (h : isDigitC c = false) :
    tryP2 (c :: t) = none := by
  unfold tryP2 p2 reNum
  rw [mtch_seq, mtch_grp, mtch_seq, mtch_plus_cons, if_neg (by simp [h])]

/-- The part of pattern 2 after the unit group (`\s+` followed by the name
group) fails on any whitespace-free string, in particular on every suffix of
a unit token. -/
theorem p2tail_fail (s : List Char) (caps : Caps)
    (k : List Char → Caps → MRes)
    (hs : ∀ c ∈ s, isWsC c = false) :
    mtch (.seq (.grp 2 (.plus isUnitC))
      (.seq (.plus isWsC) (reNameGrp 3))) s caps k = none := by
  rw [mtch_seq]
  apply mtch_none_of_k_none
  intro s2 caps2 hs2
  rw [mtch_seq]
  cases s2 with
  | nil => rfl
  | cons c l =>
    rw [mtch_plus_cons, if_neg (by simp [hs c (hs2.subset (by simp))])]

/-- The part of pattern 2 after the number group fails on any whitespace-free
string. -/
theorem p2rest_fail_nows (s : List Char) (caps : Caps)
    (k : List Char → Caps → MRes)
    (hs : ∀ c ∈ s, isWsC c = false) :
    mtch (.seq (.star isWsC) (.seq (.grp 2 (.plus isUnitC))
      (.seq (.plus isWsC) (reNameGrp 3)))) s caps k = none := by
  rw [mtch_seq, mtch_star,
    starM_head_not _ _ _ _ (fun c l h => hs c (by rw [h]; simp))]
  exact p2tail_fail s caps k hs

/-- The part of pattern 2 after the number group also fails on a space
followed by a whitespace-free string: the unit run is never followed by the
mandatory whitespace. -/
theorem p2rest_fail_space (U : List Char) (caps : Caps)
    (k : List Char → Caps → MRes)
    (hU : ∀ c ∈ U, isWsC c = false) :
    mtch (.seq (.star isWsC) (.seq (.grp 2 (.plus isUnitC))
      (.seq (.plus isWsC) (reNameGrp 3)))) (' ' :: U) caps k = none := by
  have hKU : mtch (.seq (.grp 2 (.plus isUnitC))
      (.seq (.plus isWsC) (reNameGrp 3))) U caps k = none :=
    p2tail_fail U caps k hU
  have hKsU : mtch (.seq (.grp 2 (.plus isUnitC))
      (.seq (.plus isWsC) (reNameGrp 3))) (' ' :: U) caps k = none := by
    rw [mtch_seq, mtch_grp, mtch_plus_cons, if_neg (by decide)]
  rw [mtch_seq, mtch_star]
  unfold starM
  rw [if_pos (by decide),
    starM_head_not _ _ _ _ (fun c l h => hU c (by rw [h]; simp))]
  simp only [hKU, hKsU]

/-! ## Scanning lemmas: matchAll, first match, parseFloat (for C2) -/

theorem matchAllGF_nil (try_ : Bool → List Char → MRes) (n : ℕ) (b : Bool)
    (h : try_ b [] = none) : matchAllGF try_ n [] b = [] := by
  cases n with
  | zero => rfl
  | succ n => simp only [matchAllGF, h]

theorem matchAllGF_empty (try_ : Bool → List Char → MRes) :
    ∀ (n : ℕ) (s : List Char) (b : Bool),
      try_ b s = none → (∀ s2, s2 <:+ s → try_ false s2 = none) →
      matchAllGF try_ n s b = [] := by
  intro n
  induction n with
  | zero => intro s b h1 hf; rfl
  | succ n ih =>
    intro s b h1 hf
    cases s with
    | nil => simp only [matchAllGF, h1]
    | cons c t =>
      simp only [matchAllGF, h1]
      exact ih t false (hf t (by simp))
        (fun s2 hs2 => hf s2 (hs2.trans (by simp)))

theorem matchAllG_empty_true (try_ : Bool → List Char → MRes) (s : List Char)
    (h1 : try_ true s = none)
    (hf : ∀ s2, s2 <:+ s → try_ false s2 = none) :
    matchAllG try_ s true = [] :=
  matchAllGF_empty try_ (s.length + 1) s true h1 hf

/-- A single match consuming the whole line is the only match. -/
theorem matchAllG_single (try_ : Bool → List Char → MRes) (c : Char)
    (t : List Char) (caps : Caps)
    (hsome : try_ true (c :: t) = some ([], caps))
    (hnil : try_ false [] = none) :
    matchAllG try_ (c :: t) true = [caps] := by
  simp only [matchAllG, List.length_cons, matchAllGF, hsome, hnil]
  rw [if_pos (by simp)]

theorem firstNumUnit_skip (A rest : List Char)
    (h : ∀ c ∈ A, isDigitC c = false) :
    firstNumUnit (A ++ rest) = firstNumUnit rest := by
  induction A with
  | nil => rfl
  | cons c t ih =>
    rw [List.cons_append]
    simp only [firstNumUnit]
    rw [reNumUnit_headfail c _ [] mAccept (h c (by simp))]
    exact ih (fun d hd => h d (List.mem_cons_of_mem c hd))

theorem numStr_append_head (ip fp rest : List Char) (c : Char) (l : List Char)
    (hip : ip ≠ []) (hipd : ∀ c ∈ ip, isDigitC c = true)
    (h : numStr ip fp ++ rest = c :: l) : isDigitC c = true := by
  cases ip with
  | nil => exact absurd rfl hip
  | cons a t =>
    unfold numStr at h
    rw [List.cons_append, List.cons_append, List.cons_eq_cons] at h
    rw [← h.1]
    exact hipd a (by simp)

theorem numStr_ne_nil (ip fp : List Char) (hip : ip ≠ []) :
    numStr ip fp ++ ' ' :: ([] : List Char) ≠ [] := by
  simp

/-- The first number/unit match of a line `A ++ "<v> <U>"` whose prefix `A`
has no digits: the captured value is the numeral, the captured unit the whole
unit token. -/
theorem reNumUnit_run (ip fp U : List Char)
    (hip : ip ≠ []) (hipd : ∀ c ∈ ip, isDigitC c = true)
    (hfpd : ∀ c ∈ fp, isDigitC c = true)
    (hU : U ≠ []) (hUc : ∀ c ∈ U, isUnitC c = true) :
    mtch reNumUnit (numStr ip fp ++ ' ' :: U) [] mAccept =
      some ([], [(2, U), (1, numStr ip fp)]) := by
  unfold reNumUnit
  rw [mtch_seq]
  apply mtch_grpNum_run 1 ip fp (' ' :: U) [] _ _ hip hipd hfpd
    (fun c l h => by
      rw [List.cons_eq_cons] at h
      exact ⟨by rw [← h.1]; decide, by rw [← h.1]; decide⟩)
  rw [mtch_seq, mtch_star,
    show (' ' :: U) = [' '] ++ U from rfl]
  apply starM_run_some isWsC [' '] U _ _ _ (by intro c hc; simp at hc; rw [hc]; decide)
    (fun c l h => unit_not_ws (hUc c (by rw [h]; simp)))
  apply mtch_grpUnit_run_end 2 U _ _ _ hU hUc
  rfl

theorem firstNumUnit_eval (A ip fp U : List Char)
    (hA : ∀ c ∈ A, isDigitC c = false)
    (hip : ip ≠ []) (hipd : ∀ c ∈ ip, isDigitC c = true)
    (hfpd : ∀ c ∈ fp, isDigitC c = true)
    (hU : U ≠ []) (hUc : ∀ c ∈ U, isUnitC c = true) :
    firstNumUnit (A ++ (numStr ip fp ++ ' ' :: U)) =
      some (numStr ip fp, U) := by
  rw [firstNumUnit_skip A _ hA]
  have hrun := reNumUnit_run ip fp U hip hipd hfpd hU hUc
  cases hns : numStr ip fp ++ ' ' :: U with
  | nil => exact absurd hns (by cases ip <;> simp_all [numStr])
  | cons c t =>
    simp only [firstNumUnit]
    rw [← hns, hrun]
    simp [lookupCap]

theorem splitNl_single (l : List Char) (h : ∀ c ∈ l, ¬ c = '\n') :
    splitNl l = [l] := by
  induction l with
  | nil => rfl
  | cons c t ih =>
    unfold splitNl
    rw [if_neg (h c (by simp)),
      ih (fun d hd => h d (List.mem_cons_of_mem c hd))]

theorem takeWhile_app (p : Char → Bool) (a b : List Char)
    (ha : ∀ c ∈ a, p c = true)
    (hb : ∀ c l, b = c :: l → p c = false) :
    (a ++ b).takeWhile p = a := by
  induction a with
  | nil =>
    cases b with
    | nil => rfl
    | cons c l => simp [List.takeWhile_cons, hb c l rfl]
  | cons c t ih =>
    simp [List.takeWhile_cons, ha c (by simp),
      ih (fun d hd => ha d (List.mem_cons_of_mem c hd))]

theorem takeWhile_self (p : Char → Bool) (a : List Char)
    (ha : ∀ c ∈ a, p c = true) : a.takeWhile p = a := by
  simpa using takeWhile_app p a [] ha (fun c l h => by cases h)

theorem jsParseFloat_numStr (ip fp : List Char)
    (hip : ip ≠ []) (hipd : ∀ c ∈ ip, isDigitC c = true)
    (hfpd : ∀ c ∈ fp, isDigitC c = true) :
    jsParseFloat (numStr ip fp) = some (decVal ip fp) := by
  unfold jsParseFloat numStr
  by_cases hfp : fp = []
  · subst hfp
    rw [if_pos rfl, List.append_nil]
    simp only [takeWhile_self isDigitC ip hipd, if_neg hip, List.drop_length]
  · rw [if_neg hfp]
    simp only [takeWhile_app isDigitC ip ('.' :: fp) hipd
        (fun c l h => by rw [List.cons_eq_cons] at h; rw [← h.1]; decide),
      if_neg hip, List.drop_left]
    simp only [takeWhile_self isDigitC fp hfpd]

/-! ## Pattern 2 never matches on a well-formed line (for C2) -/

theorem p2rest_nil (caps : Caps) (k : List Char → Caps → MRes) :
    mtch (.seq (.star isWsC) (.seq (.grp 2 (.plus isUnitC))
      (.seq (.plus isWsC) (reNameGrp 3)))) [] caps k = none := rfl

theorem p2rest_headfail (c : Char) (t : List Char) (caps : Caps)
    (k : List Char → Caps → MRes)
    (hw : isWsC c = false) (hu : isUnitC c = false) :
    mtch (.seq (.star isWsC) (.seq (.grp 2 (.plus isUnitC))
      (.seq (.plus isWsC) (reNameGrp 3)))) (c :: t) caps k = none := by
  rw [mtch_seq, mtch_star,
    starM_head_not _ _ _ _ (fun d l h => by
      rw [List.cons_eq_cons] at h; rw [← h.1]; exact hw)]
  rw [mtch_seq, mtch_grp, mtch_plus_cons, if_neg (by simp [hu])]

/-- Pattern 2 fails on a digits-and-dots run followed by a space and a unit
token: the unit run is never followed by the mandatory whitespace. -/
theorem tryP2_digitdot_space (v2 U : List Char)
    (hv2 : ∀ c ∈ v2, isDigitC c = true ∨ c = '.')
    (hUc : ∀ c ∈ U, isUnitC c = true) :
    tryP2 (v2 ++ ' ' :: U) = none := by
  unfold tryP2 p2
  rw [mtch_seq]
  apply mtch_none_of_k_none
  intro s3 caps3 hs3
  rcases suffix_append_cases hs3 with h | ⟨a2, ha2, hne, rfl⟩
  · rcases List.suffix_cons_iff.mp h with rfl | h
    · exact p2rest_fail_space U caps3 _ (fun c hc => unit_not_ws (hUc c hc))
    · exact p2rest_fail_nows s3 caps3 _
        (fun c hc => unit_not_ws (hUc c (h.subset hc)))
  · cases a2 with
    | nil => exact absurd rfl hne
    | cons c a2' =>
      rcases hv2 c (ha2.subset (by simp)) with hd | hdot
      · exact p2rest_headfail c _ caps3 _ (digit_not_ws hd) (digit_not_unit hd)
      · subst hdot
        exact p2rest_headfail '.' _ caps3 _ (by decide) (by decide)

/-- Pattern 2 fails on every suffix of a well-formed line whose name part is
digit-free. -/
theorem tryP2_mkLine_fail (E : RangeEntry) (ip fp : List Char)
    (hNd : ∀ c ∈ E.name.data, isDigitC c = false)
    (hUc : ∀ c ∈ E.unit.data, isUnitC c = true)
    (hip : ip ≠ []) (hipd : ∀ c ∈ ip, isDigitC c = true)
    (hfpd : ∀ c ∈ fp, isDigitC c = true) :
    ∀ s2, s2 <:+ mkLine E ip fp → tryP2 s2 = none := by
  intro s2 hs2
  unfold mkLine at hs2
  rcases suffix_append_cases hs2 with h | ⟨n2, hn2, hne, rfl⟩
  · rcases List.suffix_cons_iff.mp h with rfl | h
    · exact tryP2_headfail ':' _ (by decide)
    · rcases List.suffix_cons_iff.mp h with rfl | h
      · exact tryP2_headfail ' ' _ (by decide)
      · rcases suffix_append_cases h with h2 | ⟨v2, hv2, hvne, rfl⟩
        · rcases List.suffix_cons_iff.mp h2 with rfl | h2
          · exact tryP2_digitdot_space [] E.unit.data (by simp) hUc
          · cases s2 with
            | nil => rfl
            | cons c l =>
              refine tryP2_headfail c l ?_
              have hcU : c ∈ E.unit.data := h2.subset (by simp)
              by_contra hd
              rw [Bool.not_eq_false] at hd
              exact absurd (hUc c hcU) (by simp [digit_not_unit hd])
        · exact tryP2_digitdot_space v2 E.unit.data
            (fun c hc => numStr_chars hipd hfpd (hv2.subset hc)) hUc
  · cases n2 with
    | nil => exact absurd rfl hne
    | cons c n2' =>
      exact tryP2_headfail c _ (hNd c (hn2.subset (by simp)))

/-! ## Pattern 1 consumes a well-formed line in one match (for C2) -/

theorem p1core_run_plain (N ip fp U : List Char)
    (hN : N ≠ []) (hNc : ∀ c ∈ N, isNameC c = true)
    (hip : ip ≠ []) (hipd : ∀ c ∈ ip, isDigitC c = true)
    (hfpd : ∀ c ∈ fp, isDigitC c = true)
    (hU : U ≠ []) (hUc : ∀ c ∈ U, isUnitC c = true) :
    mtch p1core (N ++ ':' :: ' ' :: (numStr ip fp ++ ' ' :: U)) [] mAccept =
      some ([], [(3, U), (2, numStr ip fp), (1, N)]) := by
  unfold p1core
  rw [mtch_seq]
  apply mtch_nameGrp_run_plain 1 N _ [] _ _ hN hNc
    (fun c l h => by
      rw [List.cons_eq_cons] at h
      exact ⟨by rw [← h.1]; decide, by rw [← h.1]; decide⟩)
  rw [mtch_seq, mtch_star,
    starM_head_not _ _ _ _ (fun c l h => by
      rw [List.cons_eq_cons] at h; rw [← h.1]; decide)]
  rw [mtch_seq]
  apply mtch_opt_of_some
  rw [mtch_lit_cons, mtch_seq, mtch_star,
    show (' ' :: (numStr ip fp ++ ' ' :: U)) =
      [' '] ++ (numStr ip fp ++ ' ' :: U) from rfl]
  apply starM_run_some isWsC [' '] _ _ _ _
    (by intro c hc; simp at hc; rw [hc]; decide)
    (fun c l h => digit_not_ws (numStr_append_head ip fp (' ' :: U) c l hip hipd h))
  rw [mtch_seq]
  apply mtch_grpNum_run 2 ip fp (' ' :: U) _ _ _ hip hipd hfpd
    (fun c l h => by
      rw [List.cons_eq_cons] at h
      exact ⟨by rw [← h.1]; decide, by rw [← h.1]; decide⟩)
  rw [mtch_seq, mtch_star, show (' ' :: U) = [' '] ++ U from rfl]
  apply starM_run_some isWsC [' '] U _ _ _
    (by intro c hc; simp at hc; rw [hc]; decide)
    (fun c l h => unit_not_ws (hUc c (by rw [h]; simp)))
  apply mtch_grpUnit_run_end 3 U _ _ _ hU hUc
  rfl

theorem p1core_run_paren (W Q ip fp U : List Char)
    (hW : W ≠ []) (hWc : ∀ c ∈ W, isNameC c = true)
    (hQ : Q ≠ []) (hQc : ∀ c ∈ Q, isNotRParen c = true)
    (hip : ip ≠ []) (hipd : ∀ c ∈ ip, isDigitC c = true)
    (hfpd : ∀ c ∈ fp, isDigitC c = true)
    (hU : U ≠ []) (hUc : ∀ c ∈ U, isUnitC c = true) :
    mtch p1core ((W ++ '(' :: (Q ++ [')'])) ++
        ':' :: ' ' :: (numStr ip fp ++ ' ' :: U)) [] mAccept =
      some ([], [(3, U), (2, numStr ip fp), (1, W ++ '(' :: (Q ++ [')']))]) := by
  unfold p1core
  rw [mtch_seq]
  apply mtch_nameGrp_run_paren 1 W Q _ [] _ _ hW hWc hQ hQc
    (fun c l h => by
      rw [List.cons_eq_cons] at h; rw [← h.1]; decide)
  rw [mtch_seq, mtch_star,
    starM_head_not _ _ _ _ (fun c l h => by
      rw [List.cons_eq_cons] at h; rw [← h.1]; decide)]
  rw [mtch_seq]
  apply mtch_opt_of_some
  rw [mtch_lit_cons, mtch_seq, mtch_star,
    show (' ' :: (numStr ip fp ++ ' ' :: U)) =
      [' '] ++ (numStr ip fp ++ ' ' :: U) from rfl]
  apply starM_run_some isWsC [' '] _ _ _ _
    (by intro c hc; simp at hc; rw [hc]; decide)
    (fun c l h => digit_not_ws (numStr_append_head ip fp (' ' :: U) c l hip hipd h))
  rw [mtch_seq]
  apply mtch_grpNum_run 2 ip fp (' ' :: U) _ _ _ hip hipd hfpd
    (fun c l h => by
      rw [List.cons_eq_cons] at h
      exact ⟨by rw [← h.1]; decide, by rw [← h.1]; decide⟩)
  rw [mtch_seq, mtch_star, show (' ' :: U) = [' '] ++ U from rfl]
  apply starM_run_some isWsC [' '] U _ _ _
    (by intro c hc; simp at hc; rw [hc]; decide)
    (fun c l h => unit_not_ws (hUc c (by rw [h]; simp)))
  apply mtch_grpUnit_run_end 3 U _ _ _ hU hUc
  rfl

theorem tryP1_true_some (s : List Char) (res : List Char × Caps)
    (h : mtch p1core s [] mAccept = some res) : tryP1 true s = some res := by
  simp only [tryP1, if_true, h]

theorem tryP1_false_nil : tryP1 false [] = none := rfl

/-! ## Failure lemmas around a digit run followed by a colon (for the
`"Vitamin B12"` line: the digits `"12"` of the display name are followed by
`":"`, which neither the number-unit pattern nor the generic patterns can
cross) -/

theorem name_not_digit {c : Char} (h : isNameC c = true) :
    isDigitC c = false := by
  by_contra hd
  rw [Bool.not_eq_false] at hd
  rw [digit_not_name hd] at h
  cases h

theorem name_ne_colon {c : Char} (h : isNameC c = true) : ¬ c = ':' := by
  rintro rfl
  exact absurd h (by decide)

theorem name_ne_lparen {c : Char} (h : isNameC c = true) : ¬ c = '(' := by
  rintro rfl
  exact absurd h (by decide)

theorem digit_ne_lparen {c : Char} (h : isDigitC c = true) : ¬ c = '(' := by
  rintro rfl
  exact absurd h (by decide)

/-- A star over a class fails when the continuation fails at every release
point inside the region `A` (the class cannot reach past a `rest` that does
not start with a class character). -/
theorem starM_region_fail (p : Char → Bool) (A rest : List Char) (caps : Caps)
    (k : List Char → Caps → MRes)
    (hrest : ∀ c l, rest = c :: l → p c = false)
    (hk : ∀ A2, A2 <:+ A → k (A2 ++ rest) caps = none) :
    starM p (A ++ rest) caps k = none := by
  induction A with
  | nil =>
    rw [List.nil_append, starM_head_not p rest caps k hrest]
    simpa using hk [] (by simp)
  | cons a A2 ih =>
    rw [List.cons_append]
    unfold starM
    by_cases hpa : p a
    · rw [if_pos hpa, ih (fun A3 hA3 => hk A3 (hA3.trans (List.suffix_cons a A2)))]
      simpa using hk (a :: A2) (List.suffix_refl _)
    · rw [if_neg hpa]
      simpa using hk (a :: A2) (List.suffix_refl _)

/-- The number pattern `(\d+\.?\d*)` started on a digit run `D` whose
remainder `rest` begins with neither a digit nor a dot can only hand the
continuation a position inside `D`; if the continuation fails everywhere
there, the whole match fails. -/
theorem mtch_reNum_fail (D rest : List Char) (caps : Caps)
    (k : List Char → Caps → MRes)
    (hD : ∀ c ∈ D, isDigitC c = true) (hne : D ≠ [])
    (hrest : ∀ c l, rest = c :: l → isDigitC c = false ∧ ¬ c = '.')
    (hk : ∀ D2 caps2, D2 <:+ D → k (D2 ++ rest) caps2 = none) :
    mtch reNum (D ++ rest) caps k = none := by
  have hmid : ∀ E2 caps2, E2 <:+ D →
      mtch (.seq (.opt (.lit '.')) (.star isDigitC)) (E2 ++ rest) caps2 k =
        none := by
    intro E2 caps2 hE2
    rw [mtch_seq]
    have hdot : mtch (.lit '.') (E2 ++ rest) caps2
        (fun s1 c1 => mtch (.star isDigitC) s1 c1 k) = none := by
      cases E2 with
      | nil =>
        rw [List.nil_append]
        cases rest with
        | nil => rfl
        | cons c l => rw [mtch_lit_cons_iff, if_neg (hrest c l rfl).2]
      | cons e E3 =>
        rw [List.cons_append, mtch_lit_cons_iff,
          if_neg (digit_ne_dot (hD e (hE2.subset (by simp))))]
    rw [mtch_opt_of_none _ _ _ _ hdot, mtch_star]
    apply starM_region_fail isDigitC E2 rest caps2 k
      (fun c l h => (hrest c l h).1)
    intro D3 hD3
    exact hk D3 caps2 (hD3.trans hE2)
  unfold reNum
  rw [mtch_seq]
  cases D with
  | nil => exact absurd rfl hne
  | cons d D2 =>
    rw [List.cons_append, mtch_plus_cons, if_pos (hD d (by simp))]
    apply starM_region_fail isDigitC D2 rest caps _
      (fun c l h => (hrest c l h).1)
    intro D3 hD3
    exact hmid D3 caps (hD3.trans (List.suffix_cons d D2))

/-- `\s*` then a unit group fails on a digit run followed by a colon. -/
theorem wsUnit_digits_colon_fail (i : ℕ) (D2 rest : List Char) (caps : Caps)
    (hD2 : ∀ c ∈ D2, isDigitC c = true) :
    mtch (.seq (.star isWsC) (.grp i (.plus isUnitC))) (D2 ++ ':' :: rest)
      caps mAccept = none := by
  rw [mtch_seq, mtch_star]
  cases D2 with
  | nil =>
    rw [List.nil_append,
      starM_head_not _ _ _ _ (fun c l h => by
        rw [List.cons_eq_cons] at h; rw [← h.1]; decide)]
    rw [mtch_grp, mtch_plus_cons, if_neg (by decide)]
  | cons d D3 =>
    rw [List.cons_append,
      starM_head_not _ _ _ _ (fun c l h => by
        rw [List.cons_eq_cons] at h; rw [← h.1]
        exact digit_not_ws (hD2 d (by simp)))]
    rw [mtch_grp, mtch_plus_cons,
      if_neg (by simp [digit_not_unit (hD2 d (by simp))])]

/-- The number-unit regex fails on a digit run followed by a colon: the unit
class matches neither a digit nor `':'`. -/
theorem reNumUnit_digits_colon_fail (D rest : List Char)
    (hD : ∀ c ∈ D, isDigitC c = true) (hne : D ≠ []) :
    mtch reNumUnit (D ++ ':' :: rest) [] mAccept = none := by
  unfold reNumUnit
  rw [mtch_seq, mtch_grp]
  apply mtch_reNum_fail D (':' :: rest) [] _ hD hne
    (fun c l h => by
      rw [List.cons_eq_cons] at h
      exact ⟨by rw [← h.1]; decide, by rw [← h.1]; decide⟩)
  intro D2 caps2 hD2
  exact wsUnit_digits_colon_fail 2 D2 rest _ (fun c hc => hD c (hD2.subset hc))

/-- `line.match` scans past a digit run that is followed by a colon. -/
theorem firstNumUnit_digits_colon (D rest : List Char)
    (hD : ∀ c ∈ D, isDigitC c = true) :
    firstNumUnit (D ++ ':' :: rest) = firstNumUnit rest := by
  induction D with
  | nil =>
    rw [List.nil_append]
    simp only [firstNumUnit]
    rw [reNumUnit_headfail ':' rest [] mAccept (by decide)]
  | cons d D2 ih =>
    rw [List.cons_append]
    simp only [firstNumUnit]
    rw [show mtch reNumUnit (d :: (D2 ++ ':' :: rest)) [] mAccept = none from
      reNumUnit_digits_colon_fail (d :: D2) rest hD (by simp)]
    exact ih (fun c hc => hD c (List.mem_cons_of_mem d hc))

/-- The part of pattern 1 from its number group on fails on a non-digit
head. -/
theorem numTail_headfail (c : Char) (t : List Char) (caps : Caps)
    (h : isDigitC c = false) :
    mtch (.seq (.grp 2 reNum) (.seq (.star isWsC) (.grp 3 (.plus isUnitC))))
      (c :: t) caps mAccept = none := by
  unfold reNum
  rw [mtch_seq, mtch_grp, mtch_seq, mtch_plus_cons, if_neg (by simp [h])]

/-- The part of pattern 1 from its number group on fails on a digit run
followed by a colon. -/
theorem numTail_digits_colon_fail (D rest : List Char) (caps : Caps)
    (hD : ∀ c ∈ D, isDigitC c = true) (hne : D ≠ []) :
    mtch (.seq (.grp 2 reNum) (.seq (.star isWsC) (.grp 3 (.plus isUnitC))))
      (D ++ ':' :: rest) caps mAccept = none := by
  rw [mtch_seq, mtch_grp]
  apply mtch_reNum_fail D (':' :: rest) caps _ hD hne
    (fun c l h => by
      rw [List.cons_eq_cons] at h
      exact ⟨by rw [← h.1]; decide, by rw [← h.1]; decide⟩)
  intro D2 caps2 hD2
  exact wsUnit_digits_colon_fail 3 D2 rest _ (fun c hc => hD c (hD2.subset hc))

/-- The part of pattern 1 after the first `\s*` fails on a name-class region
followed by a digit run and a colon: the mandatory number group can start
neither inside the name region nor on the digit run (where the unit group
would then have to match `':'`). -/
theorem p1mid_fail (X D rest : List Char) (caps : Caps)
    (hX : ∀ c ∈ X, isNameC c = true)
    (hD : ∀ c ∈ D, isDigitC c = true) (hne : D ≠ []) :
    mtch (.seq (.opt (.lit ':')) (.seq (.star isWsC)
        (.seq (.grp 2 reNum) (.seq (.star isWsC) (.grp 3 (.plus isUnitC))))))
      (X ++ (D ++ ':' :: rest)) caps mAccept = none := by
  rw [mtch_seq]
  have hcolon : mtch (.lit ':') (X ++ (D ++ ':' :: rest)) caps
      (fun s1 c1 => mtch (.seq (.star isWsC) (.seq (.grp 2 reNum)
        (.seq (.star isWsC) (.grp 3 (.plus isUnitC))))) s1 c1 mAccept) =
        none := by
    cases X with
    | nil =>
      cases D with
      | nil => exact absurd rfl hne
      | cons d D2 =>
        rw [List.nil_append, List.cons_append, mtch_lit_cons_iff,
          if_neg (digit_ne_colon (hD d (by simp)))]
    | cons x X2 =>
      rw [List.cons_append, mtch_lit_cons_iff,
        if_neg (name_ne_colon (hX x (by simp)))]
  rw [mtch_opt_of_none _ _ _ _ hcolon, mtch_seq, mtch_star]
  apply starM_region_fail isWsC X (D ++ ':' :: rest) caps _
    (fun c l h => by
      cases D with
      | nil => exact absurd rfl hne
      | cons d D2 =>
        rw [List.cons_append, List.cons_eq_cons] at h
        rw [← h.1]
        exact digit_not_ws (hD d (by simp)))
  intro X2 hX2
  cases X2 with
  | nil =>
    rw [List.nil_append]
    exact numTail_digits_colon_fail D rest caps hD hne
  | cons c X3 =>
    rw [List.cons_append]
    exact numTail_headfail c _ caps (name_not_digit (hX c (hX2.subset (by simp))))

/-- The whole part of pattern 1 after the name group fails on a name-class
region followed by a digit run and a colon. -/
theorem p1rest_fail (X D rest : List Char) (caps : Caps)
    (hX : ∀ c ∈ X, isNameC c = true)
    (hD : ∀ c ∈ D, isDigitC c = true) (hne : D ≠ []) :
    mtch (.seq (.star isWsC) (.seq (.opt (.lit ':')) (.seq (.star isWsC)
        (.seq (.grp 2 reNum) (.seq (.star isWsC) (.grp 3 (.plus isUnitC)))))))
      (X ++ (D ++ ':' :: rest)) caps mAccept = none := by
  rw [mtch_seq, mtch_star]
  apply starM_region_fail isWsC X (D ++ ':' :: rest) caps _
    (fun c l h => by
      cases D with
      | nil => exact absurd rfl hne
      | cons d D2 =>
        rw [List.cons_append, List.cons_eq_cons] at h
        rw [← h.1]
        exact digit_not_ws (hD d (by simp)))
  intro X2 hX2
  exact p1mid_fail X2 D rest caps (fun c hc => hX c (hX2.subset hc)) hD hne

/-- The optional parenthesis group skips (and its continuation decides the
outcome) on a name-class region followed by a digit run: no `'('` can be at
the head. -/
theorem optParen_then_fail (X D rest : List Char) (caps : Caps)
    (k : List Char → Caps → MRes)
    (hX : ∀ c ∈ X, isNameC c = true)
    (hD : ∀ c ∈ D, isDigitC c = true) (hne : D ≠ [])
    (hk : k (X ++ (D ++ ':' :: rest)) caps = none) :
    mtch (.opt (.seq (.lit '(') (.seq (.plus isNotRParen) (.lit ')'))))
      (X ++ (D ++ ':' :: rest)) caps k = none := by
  have hpar : mtch (.seq (.lit '(') (.seq (.plus isNotRParen) (.lit ')')))
      (X ++ (D ++ ':' :: rest)) caps k = none := by
    rw [mtch_seq]
    cases X with
    | nil =>
      cases D with
      | nil => exact absurd rfl hne
      | cons d D2 =>
        rw [List.nil_append, List.cons_append, mtch_lit_cons_iff,
          if_neg (digit_ne_lparen (hD d (by simp)))]
    | cons x X2 =>
      rw [List.cons_append, mtch_lit_cons_iff,
        if_neg (name_ne_lparen (hX x (by simp)))]
  rw [mtch_opt_of_none _ _ _ _ hpar]
  exact hk

/-- Pattern 1 fails outright on a name-class region followed by a nonempty
digit run and a colon (the whole shape of `"Vitamin B12:"`). -/
theorem p1core_digits_colon_fail (W D rest : List Char)
    (hW : ∀ c ∈ W, isNameC c = true)
    (hD : ∀ c ∈ D, isDigitC c = true) (hne : D ≠ []) :
    mtch p1core (W ++ (D ++ ':' :: rest)) [] mAccept = none := by
  unfold p1core reNameGrp
  rw [mtch_seq, mtch_grp, mtch_seq]
  cases W with
  | nil =>
    cases D with
    | nil => exact absurd rfl hne
    | cons d D2 =>
      rw [List.nil_append, List.cons_append, mtch_plus_cons,
        if_neg (by simp [digit_not_name (hD d (by simp))])]
  | cons w W2 =>
    rw [List.cons_append, mtch_plus_cons, if_pos (hW w (by simp))]
    apply starM_region_fail isNameC W2 (D ++ ':' :: rest) [] _
      (fun c l h => by
        cases D with
        | nil => exact absurd rfl hne
        | cons d D2 =>
          rw [List.cons_append, List.cons_eq_cons] at h
          rw [← h.1]
          exact digit_not_name (hD d (by simp)))
    intro X hX
    apply optParen_then_fail X D rest _ _
      (fun c hc => hW c (List.mem_cons_of_mem w (hX.subset hc))) hD hne
    exact p1rest_fail X D rest _
      (fun c hc => hW c (List.mem_cons_of_mem w (hX.subset hc))) hD hne

/-- Pattern 1 fails on any non-name head. -/
theorem p1core_headfail (c : Char) (t : List Char) (h : isNameC c = false) :
    mtch p1core (c :: t) [] mAccept = none := by
  unfold p1core reNameGrp
  rw [mtch_seq, mtch_grp, mtch_seq, mtch_plus_cons, if_neg (by simp [h])]

theorem tryP1_false_headfail (c : Char) (t : List Char)
    (h : isWsC c = false) : tryP1 false (c :: t) = none := by
  show mtch (.seq (.cls isWsC) p1core) (c :: t) [] mAccept = none
  rw [mtch_seq, mtch_cls_cons, if_neg (by simp [h])]

theorem tryP1_false_space (s : List Char)
    (h : mtch p1core s [] mAccept = none) : tryP1 false (' ' :: s) = none := by
  show mtch (.seq (.cls isWsC) p1core) (' ' :: s) [] mAccept = none
  rw [mtch_seq, mtch_cls_cons, if_pos (by decide)]
  exact h

/-- Pattern 2 fails outright on a nonempty digit run followed by a colon. -/
theorem tryP2_digits_colon_fail (D rest : List Char)
    (hD : ∀ c ∈ D, isDigitC c = true) (hne : D ≠ []) :
    tryP2 (D ++ ':' :: rest) = none := by
  unfold tryP2 p2
  rw [mtch_seq, mtch_grp]
  apply mtch_reNum_fail D (':' :: rest) [] _ hD hne
    (fun c l h => by
      rw [List.cons_eq_cons] at h
      exact ⟨by rw [← h.1]; decide, by rw [← h.1]; decide⟩)
  intro D2 caps2 hD2
  cases D2 with
  | nil => exact p2rest_headfail ':' rest _ _ (by decide) (by decide)
  | cons d D3 =>
    exact p2rest_headfail d _ _ _
      (digit_not_ws (hD d (hD2.subset (by simp))))
      (digit_not_unit (hD d (hD2.subset (by simp))))

/-! ## The `"Vitamin B12"` line: both generic patterns produce no match -/

theorem tryP2_b12_fail (ip fp : List Char) (hip : ip ≠ [])
    (hipd : ∀ c ∈ ip, isDigitC c = true)
    (hfpd : ∀ c ∈ fp, isDigitC c = true) :
    ∀ s2, s2 <:+ ("Vitamin B12".data ++
      ':' :: ' ' :: (numStr ip fp ++ ' ' :: "pg/mL".data)) → tryP2 s2 = none := by
  intro s2 hs2
  rw [show "Vitamin B12".data = "Vitamin B".data ++ ['1', '2'] from by decide,
    List.append_assoc] at hs2
  rcases suffix_append_cases hs2 with h | ⟨w2, hw2, hwne, rfl⟩
  · rcases suffix_append_cases h with h2 | ⟨d2, hd2, hdne, rfl⟩
    · rcases List.suffix_cons_iff.mp h2 with rfl | h3
      · exact tryP2_headfail ':' _ (by decide)
      · rcases List.suffix_cons_iff.mp h3 with rfl | h4
        · exact tryP2_headfail ' ' _ (by decide)
        · rcases suffix_append_cases h4 with h5 | ⟨v2, hv2, hvne, rfl⟩
          · rcases List.suffix_cons_iff.mp h5 with rfl | h6
            · exact tryP2_digitdot_space [] "pg/mL".data (by simp) (by decide)
            · cases s2 with
              | nil => rfl
              | cons c l =>
                exact tryP2_headfail c l
                  ((by decide : ∀ c ∈ "pg/mL".data, isDigitC c = false) c
                    (h6.subset (by simp)))
          · exact tryP2_digitdot_space v2 "pg/mL".data
              (fun c hc => numStr_chars hipd hfpd (hv2.subset hc)) (by decide)
    · exact tryP2_digits_colon_fail d2 _
        (fun c hc => (by decide : ∀ c ∈ ['1', '2'], isDigitC c = true) c
          (hd2.subset hc)) hdne
  · cases w2 with
    | nil => exact absurd rfl hwne
    | cons c w3 =>
      exact tryP2_headfail c _
        ((by decide : ∀ c ∈ "Vitamin B".data, isDigitC c = false) c
          (hw2.subset (by simp)))

theorem tryP1_b12_fail (ip fp : List Char) (hip : ip ≠ [])
    (hipd : ∀ c ∈ ip, isDigitC c = true)
    (hfpd : ∀ c ∈ fp, isDigitC c = true) :
    ∀ s2, s2 <:+ ("Vitamin B12".data ++
      ':' :: ' ' :: (numStr ip fp ++ ' ' :: "pg/mL".data)) →
      tryP1 false s2 = none := by
  intro s2 hs2
  rw [show "Vitamin B12".data = "Vitamin B".data ++ ['1', '2'] from by decide,
    List.append_assoc] at hs2
  rcases suffix_append_cases hs2 with h | ⟨w2, hw2, hwne, rfl⟩
  · rcases suffix_append_cases h with h2 | ⟨d2, hd2, hdne, rfl⟩
    · rcases List.suffix_cons_iff.mp h2 with rfl | h3
      · exact tryP1_false_headfail ':' _ (by decide)
      · rcases List.suffix_cons_iff.mp h3 with rfl | h4
        · refine tryP1_false_space _ ?_
          cases hV : numStr ip fp with
          | nil =>
            refine absurd hV ?_
            cases ip with
            | nil => exact absurd rfl hip
            | cons a t => simp [numStr]
          | cons c V2 =>
            refine p1core_headfail c _ (digit_not_name ?_)
            exact numStr_append_head ip fp (' ' :: "pg/mL".data) c
              (V2 ++ ' ' :: "pg/mL".data) hip hipd
              (by rw [hV, List.cons_append])
        · rcases suffix_append_cases h4 with h5 | ⟨v2, hv2, hvne, rfl⟩
          · rcases List.suffix_cons_iff.mp h5 with rfl | h6
            · refine tryP1_false_space _ ?_
              decide
            · cases s2 with
              | nil => exact tryP1_false_nil
              | cons c l =>
                exact tryP1_false_headfail c l
                  ((by decide : ∀ c ∈ "pg/mL".data, isWsC c = false) c
                    (h6.subset (by simp)))
          · cases v2 with
            | nil => exact absurd rfl hvne
            | cons c v3 =>
              refine tryP1_false_headfail c _ ?_
              rcases numStr_chars hipd hfpd
                  (hv2.subset (by simp) : c ∈ numStr ip fp) with hd | hd
              · exact digit_not_ws hd
              · rw [hd]; decide
    · cases d2 with
      | nil => exact absurd rfl hdne
      | cons c d3 =>
        exact tryP1_false_headfail c _
          (digit_not_ws ((by decide : ∀ c ∈ ['1', '2'], isDigitC c = true) c
            (hd2.subset (by simp))))
  · cases w2 with
    | nil => exact absurd rfl hwne
    | cons c w3 =>
      by_cases hcw : isWsC c = true
      · have hcsp : c = ' ' :=
          (by decide : ∀ c ∈ "Vitamin B".data, isWsC c = true → c = ' ') c
            (hw2.subset (by simp)) hcw
        subst hcsp
        refine tryP1_false_space _ ?_
        exact p1core_digits_colon_fail w3 ['1', '2'] _
          (fun c2 hc2 => (by decide : ∀ c ∈ "Vitamin B".data, isNameC c = true)
            c2 (hw2.subset (List.mem_cons_of_mem ' ' hc2)))
          (by decide) (by simp)
      · rw [Bool.not_eq_true] at hcw
        exact tryP1_false_headfail c _ hcw

theorem tryP1_true_b12_fail (ip fp : List Char) (hip : ip ≠ [])
    (hipd : ∀ c ∈ ip, isDigitC c = true)
    (hfpd : ∀ c ∈ fp, isDigitC c = true) :
    tryP1 true ("Vitamin B12".data ++
      ':' :: ' ' :: (numStr ip fp ++ ' ' :: "pg/mL".data)) = none := by
  have hfail : mtch p1core ("Vitamin B12".data ++
      ':' :: ' ' :: (numStr ip fp ++ ' ' :: "pg/mL".data)) [] mAccept = none := by
    rw [show "Vitamin B12".data = "Vitamin B".data ++ ['1', '2'] from by decide,
      List.append_assoc]
    exact p1core_digits_colon_fail "Vitamin B".data ['1', '2'] _ (by decide)
      (by decide) (by simp)
  simp only [tryP1, if_true, hfail]
  rw [show "Vitamin B12".data ++
      ':' :: ' ' :: (numStr ip fp ++ ' ' :: "pg/mL".data) =
      'V' :: ("itamin B12".data ++
        ':' :: ' ' :: (numStr ip fp ++ ' ' :: "pg/mL".data)) from by
    rw [show "Vitamin B12".data = 'V' :: "itamin B12".data from by decide,
      List.cons_append]]
  rw [mtch_seq, mtch_cls_cons, if_neg (by decide)]

/-! ## Substring barriers: other catalog names do not occur in a line -/

theorem infix_through_digits (p v B : List Char)
    (hp : p ≠ []) (hpc : ∀ c ∈ p, isDigitC c = false ∧ ¬ c = '.')
    (hv : ∀ c ∈ v, isDigitC c = true ∨ c = '.')
    (h : p <:+: v ++ B) : p <:+: B := by
  induction v with
  | nil => simpa using h
  | cons d v2 ih =>
    rcases List.infix_cons_iff.mp h with hpre | hinf
    · cases p with
      | nil => exact absurd rfl hp
      | cons c p2 =>
        rw [List.cons_prefix_cons] at hpre
        rcases hv d (by simp) with hd | hd
        · have hc := (hpc c (by simp)).1
          rw [hpre.1, hd] at hc
          cases hc
        · exact absurd (hpre.1.trans hd) (hpc c (by simp)).2
    · exact ih (fun c hc => hv c (List.mem_cons_of_mem d hc)) hinf

theorem prefix_through_digits (p A v B : List Char)
    (hpc : ∀ c ∈ p, isDigitC c = false ∧ ¬ c = '.')
    (hv : ∀ c ∈ v, isDigitC c = true ∨ c = '.') (hvne : v ≠ []) :
    p <+: A ++ (v ++ B) → p <+: A := by
  induction A generalizing p with
  | nil =>
    intro h
    cases p with
    | nil => exact List.nil_prefix
    | cons c p2 =>
      rw [List.nil_append] at h
      cases v with
      | nil => exact absurd rfl hvne
      | cons d v2 =>
        rw [List.cons_append, List.cons_prefix_cons] at h
        rcases hv d (by simp) with hd | hd
        · have hc := (hpc c (by simp)).1
          rw [h.1, hd] at hc
          cases hc
        · exact absurd (h.1.trans hd) (hpc c (by simp)).2
  | cons a A2 ih =>
    intro h
    cases p with
    | nil => exact List.nil_prefix
    | cons c p2 =>
      rw [List.cons_append, List.cons_prefix_cons] at h
      exact List.cons_prefix_cons.mpr
        ⟨h.1, ih p2 (fun d hd => hpc d (List.mem_cons_of_mem c hd)) h.2⟩

theorem not_infix_middle (p v B : List Char)
    (hp : p ≠ []) (hpc : ∀ c ∈ p, isDigitC c = false ∧ ¬ c = '.')
    (hv : ∀ c ∈ v, isDigitC c = true ∨ c = '.') (hvne : v ≠ []) :
    ∀ A, ¬ p <:+: A → ¬ p <:+: B → ¬ p <:+: A ++ (v ++ B) := by
  intro A
  induction A with
  | nil =>
    intro hA hB h
    exact hB (infix_through_digits p v B hp hpc hv (by simpa using h))
  | cons a A2 ih =>
    intro hA hB h
    rcases List.infix_cons_iff.mp h with hpre | hinf
    · exact hA (prefix_through_digits p (a :: A2) v B hpc hv hvne
        (by simpa using hpre)).isInfix
    · exact ih (fun hc => hA (List.infix_cons_iff.mpr (Or.inr hc))) hB hinf

theorem lowerChar_digit {c : Char} (h : isDigitC c = true) :
    lowerChar c = c := by
  simp only [isDigitC, Bool.and_eq_true, decide_eq_true_eq] at h
  unfold lowerChar
  rw [if_neg]
  rintro ⟨h1, -⟩
  exact absurd (le_trans h1 h.2) (by decide)

theorem lowerL_digitdot {ip fp : List Char}
    (hipd : ∀ c ∈ ip, isDigitC c = true) (hfpd : ∀ c ∈ fp, isDigitC c = true) :
    ∀ c ∈ lowerL (numStr ip fp), isDigitC c = true ∨ c = '.' := by
  intro c hc
  rcases List.mem_map.mp hc with ⟨d, hd, rfl⟩
  rcases numStr_chars hipd hfpd hd with hdig | hdot
  · rw [lowerChar_digit hdig]
    exact Or.inl hdig
  · subst hdot
    exact Or.inr (by decide)

theorem lowerL_mkLine (E : RangeEntry) (ip fp : List Char) :
    lowerL (mkLine E ip fp) =
      lowerL (E.name.data ++ [':', ' ']) ++
        (lowerL (numStr ip fp) ++ lowerL (' ' :: E.unit.data)) := by
  simp [mkLine, lowerL]

theorem numStr_lower_ne_nil (ip fp : List Char) (hip : ip ≠ []) :
    lowerL (numStr ip fp) ≠ [] := by
  cases ip with
  | nil => exact absurd rfl hip
  | cons a t => simp [numStr, lowerL]

/-- A catalog name that neither occurs in the fixed prefix `"<E.name>: "` nor
in the fixed suffix `" <E.unit>"` (case-insensitively) — or that contains a
character occurring in neither — does not occur in the whole line. -/
theorem containsCI_line_false (p : List Char) (E : RangeEntry)
    (ip fp : List Char)
    (hip : ip ≠ []) (hipd : ∀ c ∈ ip, isDigitC c = true)
    (hfpd : ∀ c ∈ fp, isDigitC c = true)
    (hbar : (p ≠ [] ∧ (∀ c ∈ lowerL p, isDigitC c = false ∧ ¬ c = '.') ∧
             ¬ lowerL p <:+: lowerL (E.name.data ++ [':', ' ']) ∧
             ¬ lowerL p <:+: lowerL (' ' :: E.unit.data)) ∨
            (∃ c ∈ lowerL p, (isDigitC c = false ∧ ¬ c = '.') ∧
             c ∉ lowerL (E.name.data ++ [':', ' ']) ∧
             c ∉ lowerL (' ' :: E.unit.data))) :
    containsCI p (mkLine E ip fp) = false := by
  unfold containsCI
  apply decide_eq_false
  rw [lowerL_mkLine]
  rcases hbar with ⟨hpne, hpc, hA, hB⟩ | ⟨c, hc, hcd, hcA, hcB⟩
  · exact not_infix_middle (lowerL p) _ _
      (by simpa [lowerL] using hpne) hpc (lowerL_digitdot hipd hfpd)
      (numStr_lower_ne_nil ip fp hip) _ hA hB
  · intro hinf
    have hmem := hinf.subset hc
    rcases List.mem_append.mp hmem with hm | hm
    · exact hcA hm
    · rcases List.mem_append.mp hm with hm2 | hm2
      · rcases lowerL_digitdot hipd hfpd c hm2 with hd | hd
        · rw [hcd.1] at hd; cases hd
        · exact hcd.2 hd
      · exact hcB hm2

theorem containsCI_self (p rest : List Char) :
    containsCI p (p ++ rest) = true := by
  unfold containsCI
  apply decide_eq_true
  unfold lowerL
  rw [List.map_append]
  exact (List.prefix_append _ _).isInfix

/-! ## Evaluating the catalog loop and the generic-path processing -/

theorem catalogStep_pos (line : List Char) (F : RangeEntry) (v u : List Char)
    (q : ℚ) (hc : containsCI F.name.data line = true)
    (hfnu : firstNumUnit line = some (v, u)) (hq : jsParseFloat v = some q) :
    catalogStep line F = [⟨F.name, q, String.mk u⟩] := by
  simp only [catalogStep, hc, hfnu, hq, if_true]

theorem catalogStep_neg (line : List Char) (F : RangeEntry)
    (hc : containsCI F.name.data line = false) :
    catalogStep line F = [] := by
  simp [catalogStep, hc]

theorem flatM_catalog (line : List Char) (E : RangeEntry) (v u : List Char)
    (q : ℚ) (hfnu : firstNumUnit line = some (v, u))
    (hq : jsParseFloat v = some q) :
    ∀ l : List RangeEntry,
      (∀ F ∈ l, containsCI F.name.data line = decide (F.name = E.name)) →
      flatM (catalogStep line) l =
        (l.filter (fun F => F.name = E.name)).map
          (fun F => (⟨F.name, q, String.mk u⟩ : Measurement)) := by
  intro l
  induction l with
  | nil => intro _; rfl
  | cons F t ih =>
    intro hiff
    simp only [flatM, List.filter_cons]
    by_cases hFE : F.name = E.name
    · rw [catalogStep_pos line F v u q
        (by rw [hiff F (by simp)]; simp [hFE]) hfnu hq]
      rw [if_pos (by simp [hFE]),
        ih (fun G hG => hiff G (List.mem_cons_of_mem F hG))]
      rfl
    · rw [catalogStep_neg line F (by rw [hiff F (by simp)]; simp [hFE]),
        if_neg (by simp [hFE]),
        ih (fun G hG => hiff G (List.mem_cons_of_mem F hG))]
      rfl

theorem procGeneric_caps (N V U : List Char) (E : RangeEntry) (q : ℚ)
    (htrim : jsTrim N = N) (hN : N ≠ []) (hV : V ≠ []) (hU : U ≠ [])
    (hq : jsParseFloat V = some q)
    (hfind : findKnown (lowerL N) = some E) :
    procGeneric [(3, U), (2, V), (1, N)] = [⟨E.name, q, String.mk U⟩] := by
  have h1 : lookupCap [(3, U), (2, V), (1, N)] 1 = N := by simp [lookupCap]
  have h2 : lookupCap [(3, U), (2, V), (1, N)] 2 = V := by simp [lookupCap]
  have h3 : lookupCap [(3, U), (2, V), (1, N)] 3 = U := by simp [lookupCap]
  simp only [procGeneric, h1, h2, h3, htrim, if_neg hN, if_neg hV, if_neg hU, hq]
  rw [if_pos ⟨hN, by simp, hU⟩]
  simp [pushKnown, hfind]

theorem jsDedup_pair (m : Measurement) : jsDedup [m, m] = [m] := by
  have hfi : jsFindIndex (fun r => r.name = m.name) [m, m] = 0 := by
    simp [jsFindIndex]
  simp [jsDedup, jsFilterIdx, hfi]

theorem jsDedup_single (m : Measurement) : jsDedup [m] = [m] := by
  have hfi : jsFindIndex (fun r => r.name = m.name) [m] = 0 := by
    simp [jsFindIndex]
  simp [jsDedup, jsFilterIdx, hfi]

theorem numStr_nonempty (ip fp : List Char) (hip : ip ≠ []) :
    numStr ip fp ≠ [] := by
  cases ip with
  | nil => exact absurd rfl hip
  | cons a t => simp [numStr]

/-- Master evaluation of the whole extraction on the single line
`"<E.name>: <v> <E.unit>"`: the catalog path and pattern 1 each push the same
measurement once, pattern 2 pushes nothing, and dedup keeps one copy. -/
theorem parse_line_eval (E : RangeEntry) (ip fp : List Char)
    (hip : ip ≠ []) (hipd : ∀ c ∈ ip, isDigitC c = true)
    (hfpd : ∀ c ∈ fp, isDigitC c = true)
    (hNne : E.name.data ≠ [])
    (hNd : ∀ c ∈ E.name.data, isDigitC c = false)
    (hNnl : ∀ c ∈ E.name.data, ¬ c = '\n')
    (hUne : E.unit.data ≠ [])
    (hUc : ∀ c ∈ E.unit.data, isUnitC c = true)
    (hUnl : ∀ c ∈ E.unit.data, ¬ c = '\n')
    (hfilter : NORMAL_RANGES.filter (fun F => F.name = E.name) = [E])
    (htrim : jsTrim E.name.data = E.name.data)
    (hfind : findKnown (lowerL E.name.data) = some E)
    (hbarrier : ∀ F ∈ NORMAL_RANGES, F.name ≠ E.name →
      ((F.name.data ≠ [] ∧
        (∀ c ∈ lowerL F.name.data, isDigitC c = false ∧ ¬ c = '.') ∧
        ¬ lowerL F.name.data <:+: lowerL (E.name.data ++ [':', ' ']) ∧
        ¬ lowerL F.name.data <:+: lowerL (' ' :: E.unit.data)) ∨
       (∃ c ∈ lowerL F.name.data, (isDigitC c = false ∧ ¬ c = '.') ∧
        c ∉ lowerL (E.name.data ++ [':', ' ']) ∧
        c ∉ lowerL (' ' :: E.unit.data))))
    (hcore : mtch p1core (mkLine E ip fp) [] mAccept =
      some ([], [(3, E.unit.data), (2, numStr ip fp), (1, E.name.data)])) :
    parseBloodworkLC (mkLine E ip fp) = [⟨E.name, decVal ip fp, E.unit⟩] := by
  have hnl : ∀ c ∈ mkLine E ip fp, ¬ c = '\n' := by
    intro c hc
    unfold mkLine at hc
    rcases List.mem_append.mp hc with h | h
    · exact hNnl c h
    · rcases List.mem_cons.mp h with rfl | h
      · decide
      · rcases List.mem_cons.mp h with rfl | h
        · decide
        · rcases List.mem_append.mp h with h2 | h2
          · rcases numStr_chars hipd hfpd h2 with hd | hd
            · intro hceq
              rw [hceq] at hd
              exact absurd hd (by decide)
            · rw [hd]; decide
          · rcases List.mem_cons.mp h2 with rfl | h2
            · decide
            · exact hUnl c h2
  have hsplit : mkLine E ip fp =
      (E.name.data ++ [':', ' ']) ++ (numStr ip fp ++ ' ' :: E.unit.data) := by
    simp [mkLine]
  have hfnu : firstNumUnit (mkLine E ip fp) =
      some (numStr ip fp, E.unit.data) := by
    rw [hsplit]
    refine firstNumUnit_eval (E.name.data ++ [':', ' ']) ip fp E.unit.data
      ?_ hip hipd hfpd hUne hUc
    intro c hc
    rcases List.mem_append.mp hc with h | h
    · exact hNd c h
    · rcases List.mem_cons.mp h with rfl | h
      · decide
      · rcases List.mem_cons.mp h with rfl | h
        · decide
        · cases h
  have hq := jsParseFloat_numStr ip fp hip hipd hfpd
  have hcontE : containsCI E.name.data (mkLine E ip fp) = true := by
    unfold mkLine
    exact containsCI_self E.name.data _
  have hiff : ∀ F ∈ NORMAL_RANGES,
      containsCI F.name.data (mkLine E ip fp) = decide (F.name = E.name) := by
    intro F hF
    by_cases hFE : F.name = E.name
    · have hdata : F.name.data = E.name.data := by rw [hFE]
      rw [hdata, hcontE]
      simp [hFE]
    · rw [containsCI_line_false F.name.data E ip fp hip hipd hfpd
        (hbarrier F hF hFE)]
      simp [hFE]
  have hcat := flatM_catalog (mkLine E ip fp) E (numStr ip fp) E.unit.data
    (decVal ip fp) hfnu hq NORMAL_RANGES hiff
  rw [hfilter] at hcat
  simp only [List.map_cons, List.map_nil] at hcat
  have hp1 : matchAllG tryP1 (mkLine E ip fp) true =
      [[(3, E.unit.data), (2, numStr ip fp), (1, E.name.data)]] := by
    cases hN : E.name.data with
    | nil => exact absurd hN hNne
    | cons c N2 =>
      have hline : mkLine E ip fp =
          c :: (N2 ++ ':' :: ' ' :: (numStr ip fp ++ ' ' :: E.unit.data)) := by
        simp [mkLine, hN]
      rw [hline]
      exact matchAllG_single tryP1 c _ _
        (tryP1_true_some _ _ (by rw [← hline, ← hN]; exact hcore)) tryP1_false_nil
  have hp2 : matchAllG (fun _ => tryP2) (mkLine E ip fp) true = [] :=
    matchAllG_empty_true _ _
      (tryP2_mkLine_fail E ip fp hNd hUc hip hipd hfpd _ (List.suffix_refl _))
      (fun s2 hs2 => tryP2_mkLine_fail E ip fp hNd hUc hip hipd hfpd s2 hs2)
  have hproc := procGeneric_caps E.name.data (numStr ip fp) E.unit.data E
    (decVal ip fp) htrim hNne (numStr_nonempty ip fp hip) hUne hq hfind
  have hraw : rawResults (mkLine E ip fp) =
      [⟨E.name, decVal ip fp, String.mk E.unit.data⟩,
       ⟨E.name, decVal ip fp, String.mk E.unit.data⟩] := by
    unfold rawResults
    rw [splitNl_single _ hnl]
    simp only [flatM, List.append_nil]
    unfold lineResults
    rw [hcat, hp1, hp2]
    simp [flatM, hproc]
  unfold parseBloodworkLC
  rw [hraw, jsDedup_pair]

set_option maxRecDepth 20000 in
/-- Evaluation of the whole extraction on the single line
`"Vitamin B12: <v> pg/mL"`: only the catalog path pushes a measurement.  The
display name's digits `"12"` are followed by `':'`, which the number-unit
regex cannot cross, so the first number/unit match lands on the value; the
generic patterns produce no match at all on this line (pattern 1's name
class stops in front of `'1'` and its unit group then meets `':'`;
pattern 2's unit run is never followed by whitespace). -/
theorem parse_line_eval_b12 (ip fp : List Char)
    (hip : ip ≠ []) (hipd : ∀ c ∈ ip, isDigitC c = true)
    (hfpd : ∀ c ∈ fp, isDigitC c = true) :
    parseBloodworkLC
        (mkLine ⟨"b12", 200, 900, "pg/mL", "Vitamin B12"⟩ ip fp) =
      [⟨"Vitamin B12", decVal ip fp, "pg/mL"⟩] := by
  have hline : mkLine ⟨"b12", 200, 900, "pg/mL", "Vitamin B12"⟩ ip fp =
      "Vitamin B12".data ++
        ':' :: ' ' :: (numStr ip fp ++ ' ' :: "pg/mL".data) := rfl
  have hnl : ∀ c ∈ mkLine ⟨"b12", 200, 900, "pg/mL", "Vitamin B12"⟩ ip fp,
      ¬ c = '\n' := by
    intro c hc
    rw [hline] at hc
    rcases List.mem_append.mp hc with h | h
    · exact (by decide : ∀ c ∈ "Vitamin B12".data, ¬ c = '\n') c h
    · rcases List.mem_cons.mp h with rfl | h
      · decide
      · rcases List.mem_cons.mp h with rfl | h
        · decide
        · rcases List.mem_append.mp h with h2 | h2
          · rcases numStr_chars hipd hfpd h2 with hd | hd
            · exact digit_ne_nl hd
            · rw [hd]; decide
          · rcases List.mem_cons.mp h2 with rfl | h2
            · decide
            · exact (by decide : ∀ c ∈ "pg/mL".data, ¬ c = '\n') c h2
  have hfnu : firstNumUnit
      (mkLine ⟨"b12", 200, 900, "pg/mL", "Vitamin B12"⟩ ip fp) =
      some (numStr ip fp, "pg/mL".data) := by
    rw [hline,
      show "Vitamin B12".data = "Vitamin B".data ++ ['1', '2'] from by decide,
      List.append_assoc,
      firstNumUnit_skip "Vitamin B".data _ (by decide),
      firstNumUnit_digits_colon ['1', '2'] _ (by decide),
      show (' ' :: (numStr ip fp ++ ' ' :: "pg/mL".data)) =
        [' '] ++ (numStr ip fp ++ ' ' :: "pg/mL".data) from rfl,
      firstNumUnit_skip [' '] _ (by decide)]
    simpa using firstNumUnit_eval [] ip fp "pg/mL".data (by simp) hip hipd hfpd
      (by decide) (by decide)
  have hq := jsParseFloat_numStr ip fp hip hipd hfpd
  have hcontE : containsCI "Vitamin B12".data
      (mkLine ⟨"b12", 200, 900, "pg/mL", "Vitamin B12"⟩ ip fp) = true := by
    rw [hline]
    exact containsCI_self "Vitamin B12".data _
  have hbarrier : ∀ F ∈ NORMAL_RANGES, F.name ≠ "Vitamin B12" →
      ((F.name.data ≠ [] ∧
        (∀ c ∈ lowerL F.name.data, isDigitC c = false ∧ ¬ c = '.') ∧
        ¬ lowerL F.name.data <:+: lowerL ("Vitamin B12".data ++ [':', ' ']) ∧
        ¬ lowerL F.name.data <:+: lowerL (' ' :: "pg/mL".data)) ∨
       (∃ c ∈ lowerL F.name.data, (isDigitC c = false ∧ ¬ c = '.') ∧
        c ∉ lowerL ("Vitamin B12".data ++ [':', ' ']) ∧
        c ∉ lowerL (' ' :: "pg/mL".data))) := by decide
  have hiff : ∀ F ∈ NORMAL_RANGES,
      containsCI F.name.data
        (mkLine ⟨"b12", 200, 900, "pg/mL", "Vitamin B12"⟩ ip fp) =
        decide (F.name = "Vitamin B12") := by
    intro F hF
    by_cases hFE : F.name = "Vitamin B12"
    · have hdata : F.name.data = "Vitamin B12".data := by rw [hFE]
      rw [hdata, hcontE]
      simp [hFE]
    · rw [containsCI_line_false F.name.data
        ⟨"b12", 200, 900, "pg/mL", "Vitamin B12"⟩ ip fp hip hipd hfpd
        (hbarrier F hF hFE)]
      simp [hFE]
  have hcat := flatM_catalog
    (mkLine ⟨"b12", 200, 900, "pg/mL", "Vitamin B12"⟩ ip fp)
    ⟨"b12", 200, 900, "pg/mL", "Vitamin B12"⟩ (numStr ip fp) "pg/mL".data
    (decVal ip fp) hfnu hq NORMAL_RANGES hiff
  rw [show NORMAL_RANGES.filter
      (fun F => F.name =
        (⟨"b12", 200, 900, "pg/mL", "Vitamin B12"⟩ : RangeEntry).name) =
      [⟨"b12", 200, 900, "pg/mL", "Vitamin B12"⟩] from by
    with_unfolding_all decide] at hcat
  simp only [List.map_cons, List.map_nil] at hcat
  have hp1 : matchAllG tryP1
      (mkLine ⟨"b12", 200, 900, "pg/mL", "Vitamin B12"⟩ ip fp) true = [] := by
    rw [hline]
    exact matchAllG_empty_true tryP1 _ (tryP1_true_b12_fail ip fp hip hipd hfpd)
      (fun s2 hs2 => tryP1_b12_fail ip fp hip hipd hfpd s2 hs2)
  have hp2 : matchAllG (fun _ => tryP2)
      (mkLine ⟨"b12", 200, 900, "pg/mL", "Vitamin B12"⟩ ip fp) true = [] := by
    rw [hline]
    exact matchAllG_empty_true _ _
      (tryP2_b12_fail ip fp hip hipd hfpd _ (List.suffix_refl _))
      (fun s2 hs2 => tryP2_b12_fail ip fp hip hipd hfpd s2 hs2)
  have hraw : rawResults
      (mkLine ⟨"b12", 200, 900, "pg/mL", "Vitamin B12"⟩ ip fp) =
      [⟨"Vitamin B12", decVal ip fp, String.mk "pg/mL".data⟩] := by
    unfold rawResults
    rw [splitNl_single _ hnl]
    simp only [flatM, List.append_nil]
    unfold lineResults
    rw [hcat, hp1, hp2]
    simp [flatM]
  unfold parseBloodworkLC
  rw [hraw, jsDedup_single]

/-- C2, counterexample to the claim as stated: for the catalog entry
`wbc` (name `"White Blood Cell Count"`, unit `"K/μL"`) and the single line
`"White Blood Cell Count: 7 K/μL"` — exactly `"<E.name>: <v> <E.unit>"` with
`v = 7` — extraction yields the unit `"K/"`, not `E.unit`: the source's unit
character class `[a-zA-Z\/%]+` cannot match `'μ'`, so the captured unit stops
in front of it. -/
theorem C2_single_line_extraction_counterexample :
    (⟨"wbc", 4.5, 11, "K/μL", "White Blood Cell Count"⟩ : RangeEntry) ∈
        NORMAL_RANGES ∧
    parseBloodworkText "White Blood Cell Count: 7 K/μL" =
      [⟨"White Blood Cell Count", 7, "K/"⟩] := by
  set_option maxRecDepth 20000 in with_unfolding_all decide

set_option maxRecDepth 20000 in
/-- C2 (amended): for every catalog entry `E` whose unit consists only of
characters of the source's unit class `[a-zA-Z\/%]` — all catalog entries
except the five whose unit contains `'μ'` — and every decimal numeral `v`
(integer part `ip` nonempty, optional fraction part `fp`), parsing the
single line `"<E.name>: <v> <E.unit>"` yields exactly one measurement
`{name := E.name, value := v, unit := E.unit}`.  (The unrestricted claim is
false: entries with `μ` in the unit get a truncated unit, see the
counterexample.) -/
theorem C2_single_line_extraction (E : RangeEntry) (ip fp : List Char)
    (hE : E ∈ NORMAL_RANGES)
    (hUc : ∀ c ∈ E.unit.data, isUnitC c = true)
    (hip : ip ≠ []) (hipd : ∀ c ∈ ip, isDigitC c = true)
    (hfpd : ∀ c ∈ fp, isDigitC c = true) :
    parseBloodworkLC (mkLine E ip fp) = [⟨E.name, decVal ip fp, E.unit⟩] := by
  simp only [NORMAL_RANGES, List.mem_cons, List.not_mem_nil, or_false] at hE
  rcases hE with rfl | rfl | rfl | rfl | rfl | rfl | rfl | rfl | rfl | rfl |
    rfl | rfl | rfl | rfl | rfl | rfl | rfl | rfl | rfl | rfl
  -- glucose: "Glucose (Fasting)"
  · exact parse_line_eval _ ip fp hip hipd hfpd (by decide) (by decide)
      (by decide) (by decide) (by decide) (by decide)
      (by with_unfolding_all decide) (by decide)
      (by with_unfolding_all decide) (by set_option maxRecDepth 10000 in decide)
      (by
        unfold mkLine
        rw [show (⟨"glucose", 70, 100, "mg/dL", "Glucose (Fasting)"⟩ :
            RangeEntry).name.data =
          "Glucose ".data ++ '(' :: ("Fasting".data ++ [')']) from by decide]
        exact p1core_run_paren "Glucose ".data "Fasting".data ip fp _
          (by decide) (by decide) (by decide) (by decide) hip hipd hfpd
          (by decide) (by decide))
  -- hemoglobin
  · exact parse_line_eval _ ip fp hip hipd hfpd (by decide) (by decide)
      (by decide) (by decide) (by decide) (by decide)
      (by with_unfolding_all decide) (by decide)
      (by with_unfolding_all decide) (by set_option maxRecDepth 10000 in decide)
      (by
        unfold mkLine
        exact p1core_run_plain _ ip fp _ (by decide) (by decide) hip hipd hfpd
          (by decide) (by decide))
  -- hematocrit
  · exact parse_line_eval _ ip fp hip hipd hfpd (by decide) (by decide)
      (by decide) (by decide) (by decide) (by decide)
      (by with_unfolding_all decide) (by decide)
      (by with_unfolding_all decide) (by set_option maxRecDepth 10000 in decide)
      (by
        unfold mkLine
        exact p1core_run_plain _ ip fp _ (by decide) (by decide) hip hipd hfpd
          (by decide) (by decide))
  -- wbc: unit "K/μL" is outside the amended scope
  · exact absurd (hUc 'μ' (by decide)) (by decide)
  -- rbc: unit "M/μL"
  · exact absurd (hUc 'μ' (by decide)) (by decide)
  -- platelets: unit "K/μL"
  · exact absurd (hUc 'μ' (by decide)) (by decide)
  -- cholesterol
  · exact parse_line_eval _ ip fp hip hipd hfpd (by decide) (by decide)
      (by decide) (by decide) (by decide) (by decide)
      (by with_unfolding_all decide) (by decide)
      (by with_unfolding_all decide) (by set_option maxRecDepth 10000 in decide)
      (by
        unfold mkLine
        exact p1core_run_plain _ ip fp _ (by decide) (by decide) hip hipd hfpd
          (by decide) (by decide))
  -- ldl
  · exact parse_line_eval _ ip fp hip hipd hfpd (by decide) (by decide)
      (by decide) (by decide) (by decide) (by decide)
      (by with_unfolding_all decide) (by decide)
      (by with_unfolding_all decide) (by set_option maxRecDepth 10000 in decide)
      (by
        unfold mkLine
        exact p1core_run_plain _ ip fp _ (by decide) (by decide) hip hipd hfpd
          (by decide) (by decide))
  -- hdl
  · exact parse_line_eval _ ip fp hip hipd hfpd (by decide) (by decide)
      (by decide) (by decide) (by decide) (by decide)
      (by with_unfolding_all decide) (by decide)
      (by with_unfolding_all decide) (by set_option maxRecDepth 10000 in decide)
      (by
        unfold mkLine
        exact p1core_run_plain _ ip fp _ (by decide) (by decide) hip hipd hfpd
          (by decide) (by decide))
  -- triglycerides
  · exact parse_line_eval _ ip fp hip hipd hfpd (by decide) (by decide)
      (by decide) (by decide) (by decide) (by decide)
      (by with_unfolding_all decide) (by decide)
      (by with_unfolding_all decide) (by set_option maxRecDepth 10000 in decide)
      (by
        unfold mkLine
        exact p1core_run_plain _ ip fp _ (by decide) (by decide) hip hipd hfpd
          (by decide) (by decide))
  -- creatinine
  · exact parse_line_eval _ ip fp hip hipd hfpd (by decide) (by decide)
      (by decide) (by decide) (by decide) (by decide)
      (by with_unfolding_all decide) (by decide)
      (by with_unfolding_all decide) (by set_option maxRecDepth 10000 in decide)
      (by
        unfold mkLine
        exact p1core_run_plain _ ip fp _ (by decide) (by decide) hip hipd hfpd
          (by decide) (by decide))
  -- bun: "BUN (Blood Urea Nitrogen)"
  · exact parse_line_eval _ ip fp hip hipd hfpd (by decide) (by decide)
      (by decide) (by decide) (by decide) (by decide)
      (by with_unfolding_all decide) (by decide)
      (by with_unfolding_all decide) (by set_option maxRecDepth 10000 in decide)
      (by
        unfold mkLine
        rw [show (⟨"bun", 7, 20, "mg/dL", "BUN (Blood Urea Nitrogen)"⟩ :
            RangeEntry).name.data =
          "BUN ".data ++ '(' :: ("Blood Urea Nitrogen".data ++ [')'])
          from by decide]
        exact p1core_run_paren "BUN ".data "Blood Urea Nitrogen".data ip fp _
          (by decide) (by decide) (by decide) (by decide) hip hipd hfpd
          (by decide) (by decide))
  -- alt: "ALT (Alanine Aminotransferase)"
  · exact parse_line_eval _ ip fp hip hipd hfpd (by decide) (by decide)
      (by decide) (by decide) (by decide) (by decide)
      (by with_unfolding_all decide) (by decide)
      (by with_unfolding_all decide) (by set_option maxRecDepth 10000 in decide)
      (by
        unfold mkLine
        rw [show (⟨"alt", 7, 56, "U/L", "ALT (Alanine Aminotransferase)"⟩ :
            RangeEntry).name.data =
          "ALT ".data ++ '(' :: ("Alanine Aminotransferase".data ++ [')'])
          from by decide]
        exact p1core_run_paren "ALT ".data "Alanine Aminotransferase".data
          ip fp _ (by decide) (by decide) (by decide) (by decide) hip hipd hfpd
          (by decide) (by decide))
  -- ast: "AST (Aspartate Aminotransferase)"
  · exact parse_line_eval _ ip fp hip hipd hfpd (by decide) (by decide)
      (by decide) (by decide) (by decide) (by decide)
      (by with_unfolding_all decide) (by decide)
      (by with_unfolding_all decide) (by set_option maxRecDepth 10000 in decide)
      (by
        unfold mkLine
        rw [show (⟨"ast", 10, 40, "U/L", "AST (Aspartate Aminotransferase)"⟩ :
            RangeEntry).name.data =
          "AST ".data ++ '(' :: ("Aspartate Aminotransferase".data ++ [')'])
          from by decide]
        exact p1core_run_paren "AST ".data "Aspartate Aminotransferase".data
          ip fp _ (by decide) (by decide) (by decide) (by decide) hip hipd hfpd
          (by decide) (by decide))
  -- tsh: "TSH (Thyroid Stimulating Hormone)"
  · exact parse_line_eval _ ip fp hip hipd hfpd (by decide) (by decide)
      (by decide) (by decide) (by decide) (by decide)
      (by with_unfolding_all decide) (by decide)
      (by with_unfolding_all decide) (by set_option maxRecDepth 10000 in decide)
      (by
        unfold mkLine
        rw [show (⟨"tsh", 0.4, 4.0, "mIU/L",
            "TSH (Thyroid Stimulating Hormone)"⟩ : RangeEntry).name.data =
          "TSH ".data ++ '(' :: ("Thyroid Stimulating Hormone".data ++ [')'])
          from by decide]
        exact p1core_run_paren "TSH ".data "Thyroid Stimulating Hormone".data
          ip fp _ (by decide) (by decide) (by decide) (by decide) hip hipd hfpd
          (by decide) (by decide))
  -- t4: unit "μg/dL"
  · exact absurd (hUc 'μ' (by decide)) (by decide)
  -- vitamin_d
  · exact parse_line_eval _ ip fp hip hipd hfpd (by decide) (by decide)
      (by decide) (by decide) (by decide) (by decide)
      (by with_unfolding_all decide) (by decide)
      (by with_unfolding_all decide) (by set_option maxRecDepth 10000 in decide)
      (by
        unfold mkLine
        exact p1core_run_plain _ ip fp _ (by decide) (by decide) hip hipd hfpd
          (by decide) (by decide))
  -- b12: the digits in "Vitamin B12" need the colon-barrier lemmas
  · exact parse_line_eval_b12 ip fp hip hipd hfpd
  -- iron: unit "μg/dL"
  · exact absurd (hUc 'μ' (by decide)) (by decide)
  -- ferritin
  · exact parse_line_eval _ ip fp hip hipd hfpd (by decide) (by decide)
      (by decide) (by decide) (by decide) (by decide)
      (by with_unfolding_all decide) (by decide)
      (by with_unfolding_all decide) (by set_option maxRecDepth 10000 in decide)
      (by
        unfold mkLine
        exact p1core_run_plain _ ip fp _ (by decide) (by decide) hip hipd hfpd
          (by decide) (by decide))

/-- Witness for C2 (amended): the hemoglobin entry and the line
`"Hemoglobin: 14 g/dL"`. -/
theorem C2_single_line_extraction_witness :
    (⟨"hemoglobin", 12, 17.5, "g/dL", "Hemoglobin"⟩ : RangeEntry) ∈
        NORMAL_RANGES ∧
    parseBloodworkLC
        (mkLine ⟨"hemoglobin", 12, 17.5, "g/dL", "Hemoglobin"⟩ ['1', '4'] []) =
      [⟨"Hemoglobin", decVal ['1', '4'] [], "g/dL"⟩] :=
  ⟨by with_unfolding_all decide,
   C2_single_line_extraction _ ['1', '4'] [] (by with_unfolding_all decide)
     (by decide) (by decide) (by decide) (by decide)⟩

/-! ## C7: end-to-end example -/

/-- C7: the full pipeline on the text
`"Glucose: 250 mg/dL\nHemoglobin: 14 g/dL"` yields exactly two measurements —
glucose critical (high), hemoglobin normal — a flagged count of 1, and a
summary beginning with the critical-alert phrasing. -/
theorem C7_end_to_end :
    (processText "Glucose: 250 mg/dL\nHemoglobin: 14 g/dL").map
        (fun r => (r.values.map (fun v => (v.name, v.status)),
                   r.flaggedCount,
                   "⚠️ Your bloodwork shows 1 critical value(s)".data.isPrefixOf
                     r.summary.data)) =
      some ([("Glucose (Fasting)", Status.critical),
             ("Hemoglobin", Status.normal)], 1, true) := by
  with_unfolding_all decide

end Bloodwork
